import Mathlib

/-! ficsit-cli: version-constraint syntax, installation bookkeeping, mod list

A shallow embedding of

* `utils/version.go`      : the regular expression `SemVerRegex`;
* `cli/installations.go`  : `AddInstallation`, `GetInstallation`,
  `DeleteInstallation`, `Validate`, `Install`, `SetProfile`,
  `GetGameVersion`, `GetPlatform`;
* `tea/scenes/mods.go`    : the page-fetching loop of `NewMods`.
-/

namespace Ficsit

/-! ## Regular expressions (the fragment of Go `regexp` syntax used by `SemVerRegex`) -/

/-- Abstract syntax of the regular expressions that occur in the sources.
`range lo hi` is a character class `[lo-hi]`; `none` matches nothing and only
arises as a derivative. -/
inductive Regex where
  | none : Regex
  | eps : Regex
  | chr (c : Char) : Regex
  | range (lo hi : Char) : Regex
  | alt (a b : Regex) : Regex
  | seq (a b : Regex) : Regex
  | star (a : Regex) : Regex

namespace Regex

/-- `r?` -/
def opt (r : Regex) : Regex := alt r eps

/-- A literal string, character after character. -/
def lit : List Char → Regex
  | [] => eps
  | c :: cs => seq (chr c) (lit cs)

/-- Language of a regular expression: `Matches r s` when the whole of `s` is a
word of `r` (the sources anchor the expression with `^` and `$`). -/
inductive Matches : Regex → List Char → Prop
  | eps : Matches Regex.eps []
  | chr (c : Char) : Matches (Regex.chr c) [c]
  | range (lo hi c : Char) : lo ≤ c → c ≤ hi → Matches (Regex.range lo hi) [c]
  | altL (a b : Regex) (s : List Char) : Matches a s → Matches (Regex.alt a b) s
  | altR (a b : Regex) (s : List Char) : Matches b s → Matches (Regex.alt a b) s
  | seq (a b : Regex) (s t : List Char) :
      Matches a s → Matches b t → Matches (Regex.seq a b) (s ++ t)
  | starNil (a : Regex) : Matches (Regex.star a) []
  | starCons (a : Regex) (s t : List Char) :
      Matches a s → Matches (Regex.star a) t → Matches (Regex.star a) (s ++ t)

/-- Does the expression accept the empty word? -/
def nullable : Regex → Bool
  | none => false
  | eps => true
  | chr _ => false
  | range _ _ => false
  | alt a b => nullable a || nullable b
  | seq a b => nullable a && nullable b
  | star _ => true

/-- Brzozowski derivative with respect to one character. -/
def deriv : Regex → Char → Regex
  | none, _ => none
  | eps, _ => none
  | chr c, x => if c = x then eps else none
  | range lo hi, x => if lo ≤ x ∧ x ≤ hi then eps else none
  | alt a b, x => alt (deriv a x) (deriv b x)
  | seq a b, x =>
      if nullable a then alt (seq (deriv a x) b) (deriv b x) else seq (deriv a x) b
  | star a, x => seq (deriv a x) (star a)

/-- Executable whole-word matcher. -/
def rmatch : Regex → List Char → Bool
  | r, [] => nullable r
  | r, c :: cs => rmatch (deriv r c) cs

end Regex

/-! ## `utils/version.go` -/

open Regex in
/-- `\d` -/
def digit : Regex := range '0' '9'

open Regex in
/-- `[1-9]` -/
def digit19 : Regex := range '1' '9'

open Regex in
/-- `[0-9a-zA-Z-]` -/
def alnumDash : Regex := alt (range '0' '9') (alt (range 'a' 'z') (alt (range 'A' 'Z') (chr '-')))

open Regex in
/-- `[a-zA-Z-]` -/
def alphaDash : Regex := alt (range 'a' 'z') (alt (range 'A' 'Z') (chr '-'))

open Regex in
/-- First group, `(<=|<|>|>=|\^)` (without the trailing `?`). -/
def opGroup : Regex :=
  alt (lit ['<', '=']) (alt (chr '<') (alt (chr '>') (alt (lit ['>', '=']) (chr '^'))))

open Regex in
/-- Major and patch groups, `(0|[1-9]\d*)`. -/
def numGroup : Regex := alt (chr '0') (seq digit19 (star digit))

open Regex in
/-- Minor group exactly as written in the source, `(0|[1-9]d*)`: the `d` is not
escaped, so it is the letter `d`. -/
def minorGroup : Regex := alt (chr '0') (seq digit19 (star (chr 'd')))

open Regex in
/-- One pre-release identifier, `(?:0|[1-9]\d*|\d*[a-zA-Z-][0-9a-zA-Z-]*)`. -/
def preIdent : Regex :=
  alt (chr '0') (alt (seq digit19 (star digit)) (seq (star digit) (seq alphaDash (star alnumDash))))

open Regex in
/-- Pre-release part, `(?:-((?:…)(?:\.(?:…))*))?`. -/
def preRelease : Regex :=
  opt (seq (chr '-') (seq preIdent (star (seq (chr '.') preIdent))))

open Regex in
/-- Build metadata part, `(?:\+([0-9a-zA-Z-]+(?:\.[0-9a-zA-Z-]+)*))?`. -/
def buildMeta : Regex :=
  opt (seq (chr '+')
    (seq (seq alnumDash (star alnumDash))
      (star (seq (chr '.') (seq alnumDash (star alnumDash))))))

open Regex in
/-- Everything of `SemVerRegex` after the operator group. -/
def semVerCore : Regex :=
  seq numGroup (seq (chr '.') (seq minorGroup (seq (chr '.')
    (seq numGroup (seq preRelease buildMeta)))))

open Regex in
/-- The expression of `utils.SemVerRegex`:
`^(<=|<|>|>=|\^)?(0|[1-9]\d*)\.(0|[1-9]d*)\.(0|[1-9]\d*)(?:-(…))?(?:\+(…))?$`. -/
def SemVerRegex : Regex := seq (opt opGroup) semVerCore

/-- `SemVerRegex.MatchString(s)`: the expression is anchored at both ends, so
this is a whole-string match. -/
def SemVerRegex.MatchString (s : String) : Bool := SemVerRegex.rmatch s.toList

/-! ### Operators -/

/-- The comparison operators the specification lists for a version constraint. -/
def specOperators : List String := ["=", "<", "<=", ">", ">=", "^"]

/-- The operators of the first group of `SemVerRegex`, `(<=|<|>|>=|\^)`. -/
def regexOperators : List String := ["<=", "<", ">", ">=", "^"]

/-- Does the string begin with one of the operators of the specification? -/
def hasOperator (v : String) : Bool :=
  specOperators.any fun op => op.toList.isPrefixOf v.toList

/-! ## `cli/installations.go` -/

set_option linter.dupNamespace false

/-- Go `error` values as the package builds them: `errors.New`, `errors.Wrap`,
and errors handed back by the operating system and the libraries (`ext`; the
flag is what `os.IsNotExist` reports). -/
inductive Error where
  | new (msg : String) : Error
  | wrap (cause : Error) (msg : String) : Error
  | ext (notExist : Bool) (msg : String) : Error
  deriving DecidableEq, Repr

/-- `os.IsNotExist(err)`. -/
def IsNotExist : Error → Bool
  | Error.ext b _ => b
  | _ => false

/-- `os.FileInfo`, reduced to the identity `os.SameFile` inspects. -/
structure FileInfo where
  sys : Nat
  deriving DecidableEq, Repr

structure Installation where
  Path : String
  Profile : String
  deriving DecidableEq, Repr

structure Installations where
  Version : Int
  Installations : List Installation
  SelectedInstallation : String
  deriving DecidableEq, Repr

/-- A profile, declared outside the files at hand; the code here reads only
its `Name`. -/
structure Profile where
  Name : String
  deriving DecidableEq, Repr

/-- `ctx.Profiles`: `Profiles` is a Go map from profile key to profile, kept
as the list of its key/value pairs in the order `range` visits them. -/
structure Profiles where
  Profiles : List (String × Profile)
  SelectedProfile : String
  deriving DecidableEq, Repr

structure GlobalContext where
  Profiles : Profiles
  deriving DecidableEq, Repr

/-- A supported platform, declared outside the files at hand. -/
structure Platform where
  VersionPath : String
  LockfilePath : String
  deriving DecidableEq, Repr

/-- One resolved lockfile entry; the code reads `Version`, `Hash`, `Link`. -/
structure LockedMod where
  Version : String
  Hash : String
  Link : String
  deriving DecidableEq, Repr

/-- A lockfile is a Go map from mod reference to entry, kept as the list of
its key/value pairs in the order `range` visits them. -/
abbrev LockFile := List (String × LockedMod)

structure gameVersionFile where
  MajorVersion : Int
  MinorVersion : Int
  PatchVersion : Int
  Changelist : Int
  CompatibleChangelist : Int
  IsLicenseeVersion : Int
  IsPromotedBuild : Int
  BranchName : String
  BuildID : String
  deriving DecidableEq, Repr

/-- Everything `installations.go` calls but does not define: the operating
system (`os`, `path`, `path/filepath`), `encoding/json`, the `platforms` table,
the dependency resolver and the download/extraction helpers of `utils`. Each
is a function of its arguments; an `Option Error` result is a Go `error`
(`none` is `nil`). -/
structure World where
  /-- `filepath.Abs` -/
  Abs : String → Except Error String
  /-- `path.Join` -/
  Join : List String → String
  /-- `os.Stat` -/
  Stat : String → Except Error FileInfo
  /-- `os.SameFile` -/
  SameFile : FileInfo → FileInfo → Bool
  /-- `os.ReadFile` -/
  ReadFile : String → Except Error String
  /-- `os.MkdirAll` -/
  MkdirAll : String → Option Error
  /-- `os.WriteFile` -/
  WriteFile : String → String → Option Error
  /-- the package variable `platforms` -/
  platforms : List Platform
  /-- `json.Unmarshal` into a `*LockFile` (JSON `null` leaves it `nil`) -/
  UnmarshalLockFile : String → Except Error (Option LockFile)
  /-- `json.Unmarshal` into a `gameVersionFile` -/
  UnmarshalVersion : String → Except Error gameVersionFile
  /-- `json.MarshalIndent` of a lockfile -/
  MarshalIndent : LockFile → Except Error String
  /-- `(*Profile).Resolve(resolver, lockFile, gameVersion)`; the receiver is
  `nil` when the profile key is absent from the map -/
  Resolve : Option Profile → Option LockFile → Int → Except Error LockFile
  /-- `utils.DownloadOrCache(cacheKey, hash, url)`, giving reader and size -/
  DownloadOrCache : String → String → String → Except Error (String × Int)
  /-- `utils.ExtractMod(reader, size, location)` -/
  ExtractMod : String → Int → String → Option Error

/-- The calls of `Install` that act on the outside world, in program order. -/
inductive Event where
  | resolve (profile : Option Profile) (lockFile : Option LockFile) (gameVersion : Int) : Event
  | mkdirAll (path : String) : Event
  | download (cacheKey hash link : String) : Event
  | extract (reader : String) (size : Int) (location : String) : Event
  | writeFile (path data : String) : Event
  deriving DecidableEq, Repr

/-- What a run of `Install` did and what it returned (`none` is `nil`). -/
structure Outcome where
  trace : List Event
  err : Option Error
  deriving DecidableEq, Repr

/-- The `range ctx.Profiles.Profiles` search shared by `Validate` and
`SetProfile`: is there a profile value whose `Name` is the given one? -/
def GlobalContext.hasProfile (ctx : GlobalContext) (name : String) : Bool :=
  ctx.Profiles.Profiles.any fun p => p.2.Name == name

/-- One executable probe of `Validate`: `os.Stat`, a not-exist error meaning
"not found" and any other error aborting with the given message. -/
def probeExecutable (w : World) (file : String) (msg : String) : Except Error Bool :=
  match w.Stat file with
  | Except.error err =>
    if !IsNotExist err then Except.error (Error.wrap err msg) else Except.ok false
  | Except.ok _ => Except.ok true

/-- `(*Installation).Validate` -/
def Installation.Validate (w : World) (ctx : GlobalContext) (i : Installation) : Option Error :=
  if !ctx.hasProfile i.Profile then
    some (Error.new "profile not found")
  else
    match probeExecutable w (w.Join [i.Path, "FactoryGame.exe"])
        "failed reading FactoryGame.exe" with
    | Except.error err => some err
    | Except.ok f1 =>
    match probeExecutable w (w.Join [i.Path, "FactoryServer.sh"])
        "failed reading FactoryServer.sh" with
    | Except.error err => some err
    | Except.ok f2 =>
    match probeExecutable w (w.Join [i.Path, "FactoryServer.exe"])
        "failed reading FactoryServer.exe" with
    | Except.error err => some err
    | Except.ok f3 =>
    if !(f1 || f2 || f3) then
      some (Error.new ("did not find game executable in " ++ i.Path))
    else
      none

/-- The `range platforms` loop of `GetPlatform`. -/
def detectPlatform (w : World) (i : Installation) : List Platform → Except Error Platform
  | [] => Except.error (Error.new "no platform detected")
  | platform :: rest =>
    match w.Stat (w.Join [i.Path, platform.VersionPath]) with
    | Except.error err =>
      if IsNotExist err then detectPlatform w i rest
      else Except.error (Error.wrap err "failed detecting version file")
    | Except.ok _ => Except.ok platform

/-- `(*Installation).GetPlatform` -/
def Installation.GetPlatform (w : World) (ctx : GlobalContext) (i : Installation) :
    Except Error Platform :=
  match i.Validate w ctx with
  | some err => Except.error (Error.wrap err "failed to validate installation")
  | none => detectPlatform w i w.platforms

/-- `(*Installation).GetGameVersion` -/
def Installation.GetGameVersion (w : World) (ctx : GlobalContext) (i : Installation) :
    Except Error Int :=
  match i.Validate w ctx with
  | some err => Except.error (Error.wrap err "failed to validate installation")
  | none =>
  match i.GetPlatform w ctx with
  | Except.error err => Except.error err
  | Except.ok platform =>
  let fullPath := w.Join [i.Path, platform.VersionPath]
  match w.ReadFile fullPath with
  | Except.error err =>
    if IsNotExist err then Except.error (Error.wrap err "could not find game version file")
    else Except.error (Error.wrap err "failed reading version file")
  | Except.ok file =>
  match w.UnmarshalVersion file with
  | Except.error err => Except.error (Error.wrap err "failed to parse version file json")
  | Except.ok versionData => Except.ok versionData.Changelist

/-- Lines 239-249 of `Install`: read and parse the prior lockfile; a missing
file leaves `lockFile` at `nil`. -/
def readLockFile (w : World) (lockfilePath : String) : Except Error (Option LockFile) :=
  match w.ReadFile lockfilePath with
  | Except.error err =>
    if !IsNotExist err then Except.error (Error.wrap err "failed reading lockfile")
    else Except.ok none
  | Except.ok lockFileJSON =>
    match w.UnmarshalLockFile lockFileJSON with
    | Except.error err => Except.error (Error.wrap err "failed parsing lockfile")
    | Except.ok lockFile => Except.ok lockFile

/-- Lines 269-281 of `Install`: the `range lockfile` loop, with its early
returns; gives the calls made and the error returned, if any. -/
def installMods (w : World) (modsDirectory : String) : LockFile → List Event × Option Error
  | [] => ([], none)
  | (modReference, version) :: rest =>
    if version.Link ≠ "" then
      let cacheKey := modReference ++ "_" ++ version.Version ++ ".zip"
      match w.DownloadOrCache cacheKey version.Hash version.Link with
      | Except.error err =>
        ([Event.download cacheKey version.Hash version.Link],
          some (Error.wrap err ("failed to download " ++ modReference ++ " from: " ++ version.Link)))
      | Except.ok (reader, size) =>
        let location := w.Join [modsDirectory, modReference]
        match w.ExtractMod reader size location with
        | some err =>
          ([Event.download cacheKey version.Hash version.Link, Event.extract reader size location],
            some (Error.wrap err ("could not extract " ++ modReference)))
        | none =>
          let r := installMods w modsDirectory rest
          (Event.download cacheKey version.Hash version.Link
            :: Event.extract reader size location :: r.1, r.2)
    else
      installMods w modsDirectory rest

/-- `(*Installation).Install` -/
def Installation.Install (w : World) (ctx : GlobalContext) (i : Installation) : Outcome :=
  match i.Validate w ctx with
  | some err => ⟨[], some (Error.wrap err "failed to validate installation")⟩
  | none =>
  match i.GetPlatform w ctx with
  | Except.error err => ⟨[], some err⟩
  | Except.ok platform =>
  let lockfilePath := w.Join [i.Path, platform.LockfilePath]
  match readLockFile w lockfilePath with
  | Except.error err => ⟨[], some err⟩
  | Except.ok lockFile =>
  match i.GetGameVersion w ctx with
  | Except.error err => ⟨[], some (Error.wrap err "failed to detect game version")⟩
  | Except.ok gameVersion =>
  let profile := ctx.Profiles.Profiles.lookup i.Profile
  match w.Resolve profile lockFile gameVersion with
  | Except.error err =>
    ⟨[Event.resolve profile lockFile gameVersion], some (Error.wrap err "could not resolve mods")⟩
  | Except.ok lockfile =>
  let modsDirectory := w.Join [i.Path, "FactoryGame", "Mods"]
  match w.MkdirAll modsDirectory with
  | some err =>
    ⟨[Event.resolve profile lockFile gameVersion, Event.mkdirAll modsDirectory],
      some (Error.wrap err "failed creating Mods directory")⟩
  | none =>
  match installMods w modsDirectory lockfile with
  | (calls, some err) =>
    ⟨Event.resolve profile lockFile gameVersion :: Event.mkdirAll modsDirectory :: calls,
      some err⟩
  | (calls, none) =>
  match w.MarshalIndent lockfile with
  | Except.error err =>
    ⟨Event.resolve profile lockFile gameVersion :: Event.mkdirAll modsDirectory :: calls,
      some (Error.wrap err "failed to serialize lockfile json")⟩
  | Except.ok marshaledLockfile =>
  match w.WriteFile lockfilePath marshaledLockfile with
  | some err =>
    ⟨Event.resolve profile lockFile gameVersion :: Event.mkdirAll modsDirectory
        :: (calls ++ [Event.writeFile lockfilePath marshaledLockfile]),
      some (Error.wrap err "failed writing lockfile")⟩
  | none =>
    ⟨Event.resolve profile lockFile gameVersion :: Event.mkdirAll modsDirectory
        :: (calls ++ [Event.writeFile lockfilePath marshaledLockfile]),
      none⟩

/-- `(*Installation).SetProfile`: the installation afterwards and the error. -/
def Installation.SetProfile (ctx : GlobalContext) (i : Installation) (profile : String) :
    Installation × Option Error :=
  if !ctx.hasProfile profile then
    (i, some (Error.new ("could not find profile: " ++ profile)))
  else
    ({ i with Profile := profile }, none)

/-- The `range i.Installations` loop of `AddInstallation`: entries that cannot
be stat'ed are passed over, the first one that is the same file ends the
search with `found = true`. -/
def findSameFile (w : World) (newStat : FileInfo) : List Installation → Bool
  | [] => false
  | install :: rest =>
    match w.Stat install.Path with
    | Except.error _ => findSameFile w newStat rest
    | Except.ok stat => if w.SameFile newStat stat then true else findSameFile w newStat rest

/-- `(*Installations).AddInstallation`: the installations afterwards and the
returned pair (installation or error). -/
def Installations.AddInstallation (w : World) (ctx : GlobalContext) (i : Ficsit.Installations)
    (installPath : String) (profile : String) : Ficsit.Installations × Except Error Installation :=
  match w.Abs installPath with
  | Except.error err =>
    (i, Except.error (Error.wrap err ("could not resolve absolute path of: " ++ installPath)))
  | Except.ok absolutePath =>
  let installation : Installation := { Path := absolutePath, Profile := profile }
  match installation.Validate w ctx with
  | some err => (i, Except.error (Error.wrap err "failed to validate installation"))
  | none =>
  match w.Stat installation.Path with
  | Except.error err =>
    (i, Except.error (Error.wrap err "failed to stat installation directory"))
  | Except.ok newStat =>
  if findSameFile w newStat i.Installations then
    (i, Except.error (Error.new "installation already present"))
  else
    ({ i with Installations := i.Installations ++ [installation] }, Except.ok installation)

/-- `(*Installations).GetInstallation` (`none` is `nil`). -/
def Installations.GetInstallation (i : Ficsit.Installations) (installPath : String) :
    Option Installation :=
  i.Installations.find? fun install => install.Path == installPath

/-- The search loop of `DeleteInstallation`: index of the first installation
with the given path, counted from `j`; `-1` when there is none. -/
def findIndexFrom (installPath : String) : Int → List Installation → Int
  | _, [] => -1
  | j, install :: rest =>
    if install.Path = installPath then j else findIndexFrom installPath (j + 1) rest

/-- `(*Installations).DeleteInstallation`: the installations afterwards and
the error. `append(s[:found], s[found+1:]...)` is `take found ++ drop (found+1)`. -/
def Installations.DeleteInstallation (i : Ficsit.Installations) (installPath : String) :
    Ficsit.Installations × Option Error :=
  let found := findIndexFrom installPath 0 i.Installations
  if found = -1 then
    (i, some (Error.new "installation not found"))
  else
    ({ i with Installations :=
        i.Installations.take found.toNat ++ i.Installations.drop (found.toNat + 1) }, none)

/-! ## `tea/scenes/mods.go` -/

/-- `ficsit.ModsGetModsModsMod`, with the fields the scene reads. -/
structure Mod where
  Id : String
  Name : String
  Mod_reference : String
  deriving DecidableEq, Repr

/-- `utils.Mod`, the argument of `NewModMenu`. -/
structure MenuMod where
  Name : String
  ID : String
  Reference : String
  deriving DecidableEq, Repr

/-- `utils.SimpleItem` as `NewMods` builds it: the title, and the two
variables its `Activate` closure captures by value. The closure also reads the
variable `allMods`, which it shares with the loop. -/
structure SimpleItem where
  Title : String
  currentOffset : Nat
  currentI : Nat
  deriving DecidableEq, Repr

/-- The body of the `Activate` closure, given the value of `allMods` when it
runs: the mod handed to `NewModMenu`; `none` when the index is out of range
(a run-time panic). -/
def SimpleItem.Activate (allMods : List Mod) (item : SimpleItem) : Option MenuMod :=
  match allMods[item.currentOffset + item.currentI]? with
  | none => none
  | some mod => some { Name := mod.Name, ID := mod.Id, Reference := mod.Mod_reference }

/-- The inner loop `for i := 0; i < len(mods); i++`, from index `i` on, over
the mods not yet visited. -/
def pageItems (offset : Nat) : Nat → List Mod → List SimpleItem
  | _, [] => []
  | i, mod :: rest =>
    { Title := mod.Name, currentOffset := offset, currentI := i } :: pageItems offset (i + 1) rest

/-- The outer loop of the goroutine in `NewMods`. The registry answers are
taken in order from the given list of pages; the loop ends at the first empty
page. `none` when the answers run out before an empty page arrives. -/
def fetchMods : List (List Mod) → List SimpleItem → List Mod → Nat →
    Option (List SimpleItem × List Mod)
  | [], _, _, _ => none
  | mods :: responses, items, allMods, offset =>
    if mods.length = 0 then
      some (items, allMods)
    else
      fetchMods responses (items ++ pageItems offset 0 mods) (allMods ++ mods)
        (offset + mods.length)

/-- The goroutine of `NewMods`: the items sent on `m.items`, and the final
value of `allMods` the closures read. -/
def NewMods (responses : List (List Mod)) : Option (List SimpleItem × List Mod) :=
  fetchMods responses [] [] 0

/-- Loop invariant of `NewMods`: item `k` shows the name of `allMods[k]` and
its captured variables add up to `k`. -/
def ItemsAgree (items : List SimpleItem) (allMods : List Mod) : Prop :=
  items.length = allMods.length ∧
    ∀ (k : Nat) (item : SimpleItem), items[k]? = some item →
      item.currentOffset + item.currentI = k ∧ (allMods[k]?).map (fun m => m.Name) = some item.Title

/-- Two installations refer to the same file: both paths can be stat'ed and
`os.SameFile` holds of the two results. -/
def SameDirectory (w : World) (a b : Installation) : Prop :=
  ∃ sa sb, w.Stat a.Path = Except.ok sa ∧ w.Stat b.Path = Except.ok sb ∧ w.SameFile sa sb = true

/-- No two installations of the list refer to the same file. -/
def NoDuplicateDirectory (w : World) (l : List Installation) : Prop :=
  l.Pairwise fun a b => ¬ SameDirectory w a b ∧ ¬ SameDirectory w b a

/-- The `DownloadOrCache` calls of a trace, in order: cache key, hash, link. -/
def downloadCalls : List Event → List (String × String × String)
  | [] => []
  | Event.download cacheKey hash link :: rest => (cacheKey, hash, link) :: downloadCalls rest
  | _ :: rest => downloadCalls rest

/-- The directories the `ExtractMod` calls of a trace extract into, in order. -/
def extractLocations : List Event → List String
  | [] => []
  | Event.extract _ _ location :: rest => location :: extractLocations rest
  | _ :: rest => extractLocations rest

/-- The `Resolve` calls of a trace: the prior lockfile each was given. -/
def resolvePriors : List Event → List (Option LockFile)
  | [] => []
  | Event.resolve _ lockFile _ :: rest => lockFile :: resolvePriors rest
  | _ :: rest => resolvePriors rest

/-- The `WriteFile` calls of a trace: path and data. -/
def writeCalls : List Event → List (String × String)
  | [] => []
  | Event.writeFile path data :: rest => (path, data) :: writeCalls rest
  | _ :: rest => writeCalls rest

/-- Content of the file at `path` after the calls of a trace, `none` for a
file that does not exist: each `WriteFile` to the path replaces it, and the
other calls (which work under the mods directory and the download cache) leave
it alone. -/
def fileAfter (path : String) (before : Option String) : List Event → Option String
  | [] => before
  | Event.writeFile p data :: rest =>
    if p = path then fileAfter path (some data) rest else fileAfter path before rest
  | _ :: rest => fileAfter path before rest

/-- The entries of a lockfile that have a link. -/
def linkedEntries (lockfile : LockFile) : LockFile :=
  lockfile.filter fun entry => entry.2.Link ≠ ""

/-- The downloads the specification asks for: for each entry with a link, in
lockfile order, its reference and version (as the cache key), hash and link. -/
def expectedDownloads (lockfile : LockFile) : List (String × String × String) :=
  (linkedEntries lockfile).map fun entry =>
    (entry.1 ++ "_" ++ entry.2.Version ++ ".zip", entry.2.Hash, entry.2.Link)

/-- The extractions the specification asks for: for each entry with a link,
the directory of its reference under the mods directory. -/
def expectedLocations (w : World) (modsDirectory : String) (lockfile : LockFile) : List String :=
  (linkedEntries lockfile).map fun entry => w.Join [modsDirectory, entry.1]

/-- Every entry with a link downloads and extracts without error. -/
def AllInstalled (w : World) (modsDirectory : String) (lockfile : LockFile) : Prop :=
  ∀ entry ∈ lockfile, entry.2.Link ≠ "" →
    ∃ reader size,
      w.DownloadOrCache (entry.1 ++ "_" ++ entry.2.Version ++ ".zip") entry.2.Hash entry.2.Link
        = Except.ok (reader, size) ∧
      w.ExtractMod reader size (w.Join [modsDirectory, entry.1]) = none

/-- The ways a run of `Install` can go, one constructor per `return` of the
function, each with what the calls before it answered. -/
inductive InstallRun (w : World) (ctx : GlobalContext) (i : Installation) : Outcome → Prop
  | validate (e : Error) (hv : i.Validate w ctx = some e) :
      InstallRun w ctx i ⟨[], some (Error.wrap e "failed to validate installation")⟩
  | platform (e : Error) (hv : i.Validate w ctx = none)
      (hp : i.GetPlatform w ctx = Except.error e) :
      InstallRun w ctx i ⟨[], some e⟩
  | read (platform : Platform) (e : Error) (hv : i.Validate w ctx = none)
      (hp : i.GetPlatform w ctx = Except.ok platform)
      (hr : readLockFile w (w.Join [i.Path, platform.LockfilePath]) = Except.error e) :
      InstallRun w ctx i ⟨[], some e⟩
  | gameVersion (platform : Platform) (prior : Option LockFile) (e : Error)
      (hv : i.Validate w ctx = none)
      (hp : i.GetPlatform w ctx = Except.ok platform)
      (hr : readLockFile w (w.Join [i.Path, platform.LockfilePath]) = Except.ok prior)
      (hg : i.GetGameVersion w ctx = Except.error e) :
      InstallRun w ctx i ⟨[], some (Error.wrap e "failed to detect game version")⟩
  | resolve (platform : Platform) (prior : Option LockFile) (gv : Int) (e : Error)
      (hv : i.Validate w ctx = none)
      (hp : i.GetPlatform w ctx = Except.ok platform)
      (hr : readLockFile w (w.Join [i.Path, platform.LockfilePath]) = Except.ok prior)
      (hg : i.GetGameVersion w ctx = Except.ok gv)
      (hres : w.Resolve (ctx.Profiles.Profiles.lookup i.Profile) prior gv = Except.error e) :
      InstallRun w ctx i
        ⟨[Event.resolve (ctx.Profiles.Profiles.lookup i.Profile) prior gv],
          some (Error.wrap e "could not resolve mods")⟩
  | mkdir (platform : Platform) (prior : Option LockFile) (gv : Int) (lockfile : LockFile)
      (e : Error) (hv : i.Validate w ctx = none)
      (hp : i.GetPlatform w ctx = Except.ok platform)
      (hr : readLockFile w (w.Join [i.Path, platform.LockfilePath]) = Except.ok prior)
      (hg : i.GetGameVersion w ctx = Except.ok gv)
      (hres : w.Resolve (ctx.Profiles.Profiles.lookup i.Profile) prior gv = Except.ok lockfile)
      (hm : w.MkdirAll (w.Join [i.Path, "FactoryGame", "Mods"]) = some e) :
      InstallRun w ctx i
        ⟨[Event.resolve (ctx.Profiles.Profiles.lookup i.Profile) prior gv,
            Event.mkdirAll (w.Join [i.Path, "FactoryGame", "Mods"])],
          some (Error.wrap e "failed creating Mods directory")⟩
  | mods (platform : Platform) (prior : Option LockFile) (gv : Int) (lockfile : LockFile)
      (e : Error) (hv : i.Validate w ctx = none)
      (hp : i.GetPlatform w ctx = Except.ok platform)
      (hr : readLockFile w (w.Join [i.Path, platform.LockfilePath]) = Except.ok prior)
      (hg : i.GetGameVersion w ctx = Except.ok gv)
      (hres : w.Resolve (ctx.Profiles.Profiles.lookup i.Profile) prior gv = Except.ok lockfile)
      (hm : w.MkdirAll (w.Join [i.Path, "FactoryGame", "Mods"]) = none)
      (hi : (installMods w (w.Join [i.Path, "FactoryGame", "Mods"]) lockfile).2 = some e) :
      InstallRun w ctx i
        ⟨Event.resolve (ctx.Profiles.Profiles.lookup i.Profile) prior gv
            :: Event.mkdirAll (w.Join [i.Path, "FactoryGame", "Mods"])
            :: (installMods w (w.Join [i.Path, "FactoryGame", "Mods"]) lockfile).1,
          some e⟩
  | marshal (platform : Platform) (prior : Option LockFile) (gv : Int) (lockfile : LockFile)
      (e : Error) (hv : i.Validate w ctx = none)
      (hp : i.GetPlatform w ctx = Except.ok platform)
      (hr : readLockFile w (w.Join [i.Path, platform.LockfilePath]) = Except.ok prior)
      (hg : i.GetGameVersion w ctx = Except.ok gv)
      (hres : w.Resolve (ctx.Profiles.Profiles.lookup i.Profile) prior gv = Except.ok lockfile)
      (hm : w.MkdirAll (w.Join [i.Path, "FactoryGame", "Mods"]) = none)
      (hi : (installMods w (w.Join [i.Path, "FactoryGame", "Mods"]) lockfile).2 = none)
      (hj : w.MarshalIndent lockfile = Except.error e) :
      InstallRun w ctx i
        ⟨Event.resolve (ctx.Profiles.Profiles.lookup i.Profile) prior gv
            :: Event.mkdirAll (w.Join [i.Path, "FactoryGame", "Mods"])
            :: (installMods w (w.Join [i.Path, "FactoryGame", "Mods"]) lockfile).1,
          some (Error.wrap e "failed to serialize lockfile json")⟩
  | write (platform : Platform) (prior : Option LockFile) (gv : Int) (lockfile : LockFile)
      (data : String) (hv : i.Validate w ctx = none)
      (hp : i.GetPlatform w ctx = Except.ok platform)
      (hr : readLockFile w (w.Join [i.Path, platform.LockfilePath]) = Except.ok prior)
      (hg : i.GetGameVersion w ctx = Except.ok gv)
      (hres : w.Resolve (ctx.Profiles.Profiles.lookup i.Profile) prior gv = Except.ok lockfile)
      (hm : w.MkdirAll (w.Join [i.Path, "FactoryGame", "Mods"]) = none)
      (hi : (installMods w (w.Join [i.Path, "FactoryGame", "Mods"]) lockfile).2 = none)
      (hj : w.MarshalIndent lockfile = Except.ok data) :
      InstallRun w ctx i
        ⟨Event.resolve (ctx.Profiles.Profiles.lookup i.Profile) prior gv
            :: Event.mkdirAll (w.Join [i.Path, "FactoryGame", "Mods"])
            :: ((installMods w (w.Join [i.Path, "FactoryGame", "Mods"]) lockfile).1
                ++ [Event.writeFile (w.Join [i.Path, platform.LockfilePath]) data]),
          (w.WriteFile (w.Join [i.Path, platform.LockfilePath]) data).map
            fun e => Error.wrap e "failed writing lockfile"⟩

/-- Every installation of the list has a profile that exists in the context. -/
def AllAssociated (ctx : GlobalContext) (l : List Installation) : Prop :=
  ∀ x ∈ l, ctx.hasProfile x.Profile = true

/-- The calls the download-and-extract step makes for one entry: the download,
and the extraction of what was downloaded when the download succeeded. -/
def entryCalls (w : World) (modsDirectory : String) (entry : String × LockedMod) : List Event :=
  match w.DownloadOrCache (entry.1 ++ "_" ++ entry.2.Version ++ ".zip") entry.2.Hash
      entry.2.Link with
  | Except.error _ =>
    [Event.download (entry.1 ++ "_" ++ entry.2.Version ++ ".zip") entry.2.Hash entry.2.Link]
  | Except.ok (reader, size) =>
    [Event.download (entry.1 ++ "_" ++ entry.2.Version ++ ".zip") entry.2.Hash entry.2.Link,
      Event.extract reader size (w.Join [modsDirectory, entry.1])]

/-! ## Concrete worlds on which the definitions are run -/

/-- A context with the single profile `main`. -/
def demoCtx : GlobalContext :=
  { Profiles := { Profiles := [("main", { Name := "main" })], SelectedProfile := "main" } }

/-- A resolved lockfile: two mods with a link, one without. -/
def demoLockFile : LockFile :=
  [("A", { Version := "1.0.0", Hash := "ha", Link := "https://a" }),
   ("L", { Version := "0.1.0", Hash := "hl", Link := "" }),
   ("B", { Version := "2.0.0", Hash := "hb", Link := "https://b" })]

/-- A world with one game directory `/game` (also reachable as `/link`), no
lockfile on disk, and every collaborator succeeding. -/
def demoWorld : World where
  Abs := fun p => Except.ok p
  Join := fun l => "/".intercalate l
  Stat := fun p =>
    if p = "/game" then Except.ok { sys := 1 }
    else if p = "/link" then Except.ok { sys := 1 }
    else if p = "/game/FactoryGame.exe" then Except.ok { sys := 2 }
    else if p = "/link/FactoryGame.exe" then Except.ok { sys := 2 }
    else if p = "/game/ver" then Except.ok { sys := 3 }
    else if p = "/other" then Except.ok { sys := 4 }
    else if p = "/other/FactoryServer.sh" then Except.ok { sys := 5 }
    else Except.error (Error.ext true "no such file or directory")
  SameFile := fun a b => a.sys == b.sys
  ReadFile := fun p =>
    if p = "/game/ver" then Except.ok "version-json"
    else Except.error (Error.ext true "no such file or directory")
  MkdirAll := fun _ => none
  WriteFile := fun _ _ => none
  platforms := [{ VersionPath := "ver", LockfilePath := "lock.json" }]
  UnmarshalLockFile := fun _ => Except.ok (some [])
  UnmarshalVersion := fun s =>
    if s = "version-json" then
      Except.ok { MajorVersion := 0, MinorVersion := 0, PatchVersion := 0, Changelist := 1234,
                  CompatibleChangelist := 0, IsLicenseeVersion := 0, IsPromotedBuild := 0,
                  BranchName := "", BuildID := "" }
    else Except.error (Error.ext false "unexpected end of JSON input")
  MarshalIndent := fun _ => Except.ok "lock-json"
  Resolve := fun _ _ _ => Except.ok demoLockFile
  DownloadOrCache := fun k _ _ => Except.ok (k, 10)
  ExtractMod := fun _ _ _ => none

/-- As `demoWorld`, but the download of mod `A` fails. -/
def failingDownloadWorld : World :=
  { demoWorld with
    DownloadOrCache := fun k _ _ =>
      if k = "A_1.0.0.zip" then Except.error (Error.ext false "connection reset")
      else Except.ok (k, 10) }

/-- As `demoWorld`, but the game version file does not parse. -/
def badVersionWorld : World :=
  { demoWorld with
    UnmarshalVersion := fun _ => Except.error (Error.ext false "unexpected end of JSON input") }

/-- The installation at `/game` with profile `main`. -/
def demoInstallation : Installation := { Path := "/game", Profile := "main" }

/-- Four installations, two of them with the path `/b`. -/
def demoInstallations : Installations :=
  { Version := 0, SelectedInstallation := "",
    Installations := [⟨"/a", "x"⟩, ⟨"/b", "y"⟩, ⟨"/c", "z"⟩, ⟨"/b", "w"⟩] }

/-- The installations file with the single installation at `/game`. -/
def demoRegistered : Installations :=
  { Version := 0, SelectedInstallation := "/game", Installations := [demoInstallation] }

/-- As `demoWorld`, but the extraction of mod `A` fails. -/
def failingExtractWorld : World :=
  { demoWorld with
    ExtractMod := fun _ _ location =>
      if location = "/game/FactoryGame/Mods/A" then some (Error.ext false "zip: not a valid zip file")
      else none }

/-! ### The matcher computes the language -/

namespace Regex

theorem matches_none_iff (s : List Char) : Matches none s ↔ False :=
  ⟨fun h => (by cases h), fun h => h.elim⟩

theorem matches_eps_iff (s : List Char) : Matches eps s ↔ s = [] :=
  ⟨fun h => (by cases h; rfl), fun h => h ▸ Matches.eps⟩

theorem matches_chr_iff (c : Char) (s : List Char) : Matches (chr c) s ↔ s = [c] :=
  ⟨fun h => (by cases h; rfl), fun h => h ▸ Matches.chr c⟩

theorem matches_range_iff (lo hi : Char) (s : List Char) :
    Matches (range lo hi) s ↔ ∃ c, lo ≤ c ∧ c ≤ hi ∧ s = [c] := by
  constructor
  · intro h
    cases h with
    | range _ _ c h1 h2 => exact ⟨c, h1, h2, rfl⟩
  · rintro ⟨c, h1, h2, rfl⟩
    exact Matches.range lo hi c h1 h2

theorem matches_alt_iff (a b : Regex) (s : List Char) :
    Matches (alt a b) s ↔ Matches a s ∨ Matches b s := by
  constructor
  · intro h
    cases h with
    | altL _ _ _ h => exact Or.inl h
    | altR _ _ _ h => exact Or.inr h
  · rintro (h | h)
    · exact Matches.altL a b s h
    · exact Matches.altR a b s h

theorem matches_seq_iff (a b : Regex) (w : List Char) :
    Matches (seq a b) w ↔ ∃ s t, w = s ++ t ∧ Matches a s ∧ Matches b t := by
  constructor
  · intro h
    cases h with
    | seq _ _ s t h1 h2 => exact ⟨s, t, rfl, h1, h2⟩
  · rintro ⟨s, t, rfl, h1, h2⟩
    exact Matches.seq a b s t h1 h2

theorem matches_opt_iff (a : Regex) (s : List Char) :
    Matches (opt a) s ↔ Matches a s ∨ s = [] := by
  unfold opt
  rw [matches_alt_iff, matches_eps_iff]

theorem matches_lit_iff (l s : List Char) : Matches (lit l) s ↔ s = l := by
  induction l generalizing s with
  | nil => simp [lit, matches_eps_iff]
  | cons c cs ih =>
    simp only [lit, matches_seq_iff, matches_chr_iff, ih]
    constructor
    · rintro ⟨s1, t, rfl, rfl, rfl⟩
      rfl
    · rintro rfl
      exact ⟨[c], cs, rfl, rfl, rfl⟩

/-- A non-empty word of `a*` starts with a non-empty word of `a`. -/
theorem matches_star_cons (a : Regex) (c : Char) (w : List Char)
    (h : Matches (star a) (c :: w)) :
    ∃ s t, w = s ++ t ∧ Matches a (c :: s) ∧ Matches (star a) t := by
  generalize hr : star a = r at h
  generalize hw : c :: w = w1 at h
  induction h with
  | eps => cases hr
  | chr => cases hr
  | range => cases hr
  | altL => cases hr
  | altR => cases hr
  | seq => cases hr
  | starNil => cases hw
  | starCons a1 s t h1 h2 _ ih2 =>
    cases hr
    cases s with
    | nil => exact ih2 rfl (by simpa using hw)
    | cons d s1 =>
      simp only [List.cons_append, List.cons.injEq] at hw
      obtain ⟨rfl, rfl⟩ := hw
      exact ⟨s1, t, rfl, h1, h2⟩

theorem nullable_iff (r : Regex) : nullable r = true ↔ Matches r [] := by
  induction r with
  | none => simp [nullable, matches_none_iff]
  | eps => simp [nullable, matches_eps_iff]
  | chr c => simp [nullable, matches_chr_iff]
  | range lo hi => simp [nullable, matches_range_iff]
  | alt a b iha ihb => simp [nullable, matches_alt_iff, iha, ihb]
  | seq a b iha ihb =>
    simp only [nullable, Bool.and_eq_true, iha, ihb, matches_seq_iff]
    constructor
    · rintro ⟨h1, h2⟩
      exact ⟨[], [], rfl, h1, h2⟩
    · rintro ⟨s, t, hst, h1, h2⟩
      have hs : s = [] := by
        cases s with
        | nil => rfl
        | cons _ _ => simp at hst
      have ht : t = [] := by
        cases t with
        | nil => rfl
        | cons _ _ => simp at hst
      subst hs
      subst ht
      exact ⟨h1, h2⟩
  | star a _ => simp [nullable, Matches.starNil]

theorem deriv_iff (r : Regex) (c : Char) (w : List Char) :
    Matches (deriv r c) w ↔ Matches r (c :: w) := by
  induction r generalizing w with
  | none => simp [deriv, matches_none_iff]
  | eps => simp [deriv, matches_none_iff, matches_eps_iff]
  | chr d =>
    by_cases h : d = c
    · simp [deriv, h, matches_eps_iff, matches_chr_iff]
    · simp only [deriv, if_neg h, matches_none_iff, matches_chr_iff, false_iff]
      intro hd
      simp only [List.cons.injEq] at hd
      exact h hd.1.symm
  | range lo hi =>
    by_cases h : lo ≤ c ∧ c ≤ hi
    · simp only [deriv, if_pos h, matches_eps_iff, matches_range_iff]
      constructor
      · rintro rfl
        exact ⟨c, h.1, h.2, rfl⟩
      · rintro ⟨d, _, _, hd⟩
        simp only [List.cons.injEq] at hd
        exact hd.2
    · simp only [deriv, if_neg h, matches_none_iff, matches_range_iff, false_iff]
      rintro ⟨d, h1, h2, hd⟩
      simp only [List.cons.injEq] at hd
      obtain ⟨rfl, -⟩ := hd
      exact h ⟨h1, h2⟩
  | alt a b iha ihb => simp [deriv, matches_alt_iff, iha, ihb]
  | seq a b iha ihb =>
    have key : Matches (seq a b) (c :: w) ↔
        (∃ s t, w = s ++ t ∧ Matches a (c :: s) ∧ Matches b t) ∨
          (Matches a [] ∧ Matches b (c :: w)) := by
      rw [matches_seq_iff]
      constructor
      · rintro ⟨s, t, hst, h1, h2⟩
        cases s with
        | nil =>
          simp only [List.nil_append] at hst
          subst hst
          exact Or.inr ⟨h1, h2⟩
        | cons d s1 =>
          simp only [List.cons_append, List.cons.injEq] at hst
          obtain ⟨rfl, rfl⟩ := hst
          exact Or.inl ⟨s1, t, rfl, h1, h2⟩
      · rintro (⟨s, t, rfl, h1, h2⟩ | ⟨h1, h2⟩)
        · exact ⟨c :: s, t, rfl, h1, h2⟩
        · exact ⟨[], c :: w, rfl, h1, h2⟩
    rw [key]
    by_cases hn : nullable a = true
    · simp only [deriv, if_pos hn, matches_alt_iff, matches_seq_iff, iha, ihb]
      have hn1 : Matches a [] := (nullable_iff a).1 hn
      simp [hn1]
    · simp only [deriv, if_neg hn, matches_seq_iff, iha]
      have hn1 : ¬ Matches a [] := fun h => hn ((nullable_iff a).2 h)
      simp [hn1]
  | star a iha =>
    simp only [deriv, matches_seq_iff, iha]
    constructor
    · rintro ⟨s, t, rfl, h1, h2⟩
      exact Matches.starCons a (c :: s) t h1 h2
    · intro h
      exact matches_star_cons a c w h

/-- The derivative matcher decides membership in the language. -/
theorem rmatch_iff (r : Regex) (s : List Char) : rmatch r s = true ↔ Matches r s := by
  induction s generalizing r with
  | nil => simp [rmatch, nullable_iff]
  | cons c cs ih => simp [rmatch, ih, deriv_iff]

end Regex

theorem matches_opGroup_iff (s : List Char) :
    Regex.Matches opGroup s ↔
      s = ['<', '='] ∨ s = ['<'] ∨ s = ['>'] ∨ s = ['>', '='] ∨ s = ['^'] := by
  simp only [opGroup, Regex.matches_alt_iff, Regex.matches_lit_iff, Regex.matches_chr_iff]

/-- A string without operator that the whole expression matches is matched by
the part after the operator group. -/
theorem core_of_match_of_no_operator (v : String)
    (hm : SemVerRegex.MatchString v = true) (hop : hasOperator v = false) :
    Regex.Matches semVerCore v.toList := by
  unfold SemVerRegex.MatchString at hm
  rw [Regex.rmatch_iff] at hm
  unfold SemVerRegex at hm
  rw [Regex.matches_seq_iff] at hm
  obtain ⟨s, t, hst, hs, ht⟩ := hm
  rw [Regex.matches_opt_iff, matches_opGroup_iff] at hs
  have hfalse : ∀ op ∈ specOperators, op.toList = s → False := by
    intro op hmem hops
    have : hasOperator v = true := by
      unfold hasOperator
      rw [List.any_eq_true]
      refine ⟨op, hmem, ?_⟩
      rw [hst, hops, List.isPrefixOf_iff_prefix]
      exact List.prefix_append s t
    rw [hop] at this
    cases this
  rcases hs with (h | h | h | h | h) | h
  · exact (hfalse "<=" (by decide) h.symm).elim
  · exact (hfalse "<" (by decide) h.symm).elim
  · exact (hfalse ">" (by decide) h.symm).elim
  · exact (hfalse ">=" (by decide) h.symm).elim
  · exact (hfalse "^" (by decide) h.symm).elim
  · subst h
    rw [hst]
    exact ht

theorem matches_opGroup_of_mem (op : String) (hop : op ∈ regexOperators) :
    Regex.Matches opGroup op.toList := by
  rw [matches_opGroup_iff]
  simp only [regexOperators, List.mem_cons, List.mem_singleton, List.not_mem_nil, or_false] at hop
  rcases hop with rfl | rfl | rfl | rfl | rfl <;> decide

/-! ### Installations: auxiliary facts -/

theorem hasProfile_iff (ctx : GlobalContext) (name : String) :
    ctx.hasProfile name = true ↔ ∃ p ∈ ctx.Profiles.Profiles, p.2.Name = name := by
  simp [GlobalContext.hasProfile, List.any_eq_true]

theorem validate_of_no_profile (w : World) (ctx : GlobalContext) (i : Installation)
    (h : ctx.hasProfile i.Profile = false) :
    i.Validate w ctx = some (Error.new "profile not found") := by
  simp [Installation.Validate, h]

theorem hasProfile_of_validate (w : World) (ctx : GlobalContext) (i : Installation)
    (h : i.Validate w ctx = none) : ctx.hasProfile i.Profile = true := by
  by_contra hc
  have hf : ctx.hasProfile i.Profile = false := by simpa using hc
  rw [validate_of_no_profile w ctx i hf] at h
  cases h

/-- The search loop of `DeleteInstallation` finds the first installation with
the path, or answers `-1` when there is none. -/
theorem findIndexFrom_spec (p : String) (l : List Installation) (j : Int) (hj : 0 ≤ j) :
    (findIndexFrom p j l = -1 ∧ ∀ x ∈ l, x.Path ≠ p) ∨
      ∃ pre x post, l = pre ++ x :: post ∧ x.Path = p ∧ (∀ y ∈ pre, y.Path ≠ p) ∧
        findIndexFrom p j l = j + pre.length := by
  induction l generalizing j with
  | nil => exact Or.inl ⟨rfl, by simp⟩
  | cons a rest ih =>
    by_cases ha : a.Path = p
    · refine Or.inr ⟨[], a, rest, rfl, ha, by simp, ?_⟩
      simp [findIndexFrom, ha]
    · rcases ih (j + 1) (by omega) with ⟨h1, h2⟩ | ⟨pre, x, post, hl, hx, hpre, hidx⟩
      · refine Or.inl ⟨?_, ?_⟩
        · simp [findIndexFrom, ha, h1]
        · intro y hy
          rcases List.mem_cons.1 hy with rfl | hy
          · exact ha
          · exact h2 y hy
      · refine Or.inr ⟨a :: pre, x, post, by simp [hl], hx, ?_, ?_⟩
        · intro y hy
          rcases List.mem_cons.1 hy with rfl | hy
          · exact ha
          · exact hpre y hy
        · simp only [findIndexFrom, if_neg ha, hidx, List.length_cons]
          push_cast
          omega

theorem pageItems_length (offset : Nat) (i : Nat) (mods : List Mod) :
    (pageItems offset i mods).length = mods.length := by
  induction mods generalizing i with
  | nil => rfl
  | cons m ms ih => simp [pageItems, ih]

theorem pageItems_getElem? (offset : Nat) (i k : Nat) (mods : List Mod) :
    (pageItems offset i mods)[k]? =
      (mods[k]?).map fun m => { Title := m.Name, currentOffset := offset, currentI := i + k } := by
  induction mods generalizing i k with
  | nil => simp [pageItems]
  | cons m ms ih =>
    cases k with
    | zero => simp [pageItems]
    | succ k =>
      simp only [pageItems, List.getElem?_cons_succ, ih]
      congr 1
      funext m1
      congr 1
      omega

theorem itemsAgree_append (items : List SimpleItem) (allMods mods : List Mod)
    (h : ItemsAgree items allMods) :
    ItemsAgree (items ++ pageItems allMods.length 0 mods) (allMods ++ mods) := by
  obtain ⟨hlen, hk⟩ := h
  refine ⟨by simp [hlen, pageItems_length], ?_⟩
  intro k item hitem
  by_cases hlt : k < items.length
  · rw [List.getElem?_append_left hlt] at hitem
    have := hk k item hitem
    rw [List.getElem?_append_left (hlen ▸ hlt)]
    exact this
  · have hge : items.length ≤ k := Nat.le_of_not_lt hlt
    rw [List.getElem?_append_right hge, pageItems_getElem?] at hitem
    rw [List.getElem?_append_right (hlen ▸ hge), ← hlen]
    cases hm : mods[k - items.length]? with
    | none => simp [hm] at hitem
    | some m =>
      simp only [hm, Option.map_some', Option.some.injEq] at hitem
      subst hitem
      simp only [Option.map_some', zero_add, and_true]
      omega

theorem fetchMods_spec (pages : List (List Mod)) (rest : List (List Mod))
    (hne : ∀ p ∈ pages, p ≠ []) (items : List SimpleItem) (allMods : List Mod)
    (h : ItemsAgree items allMods) :
    ∃ items1, fetchMods (pages ++ [] :: rest) items allMods allMods.length
        = some (items1, allMods ++ pages.flatten) ∧ ItemsAgree items1 (allMods ++ pages.flatten) := by
  induction pages generalizing items allMods with
  | nil => exact ⟨items, by simp [fetchMods], by simpa using h⟩
  | cons page pages ih =>
    have hp : page ≠ [] := hne page (List.mem_cons_self _ _)
    have hlen : page.length ≠ 0 := by
      intro h0
      exact hp (List.length_eq_zero.1 h0)
    have ih1 := ih (fun q hq => hne q (List.mem_cons_of_mem _ hq))
      (items ++ pageItems allMods.length 0 page) (allMods ++ page)
      (itemsAgree_append items allMods page h)
    obtain ⟨items1, he, hag⟩ := ih1
    refine ⟨items1, ?_, ?_⟩
    · have hcons : (page :: pages) ++ [] :: rest = page :: (pages ++ [] :: rest) := rfl
      rw [hcons, fetchMods, if_neg hlen, ← List.length_append, he]
      simp [List.append_assoc]
    · simpa [List.append_assoc] using hag

/-- The search loop of `AddInstallation` answers `true` exactly when some
installation of the list can be stat'ed and is the same file. -/
theorem findSameFile_iff (w : World) (newStat : FileInfo) (l : List Installation) :
    findSameFile w newStat l = true ↔
      ∃ x ∈ l, ∃ st, w.Stat x.Path = Except.ok st ∧ w.SameFile newStat st = true := by
  induction l with
  | nil => simp [findSameFile]
  | cons a rest ih =>
    cases hs : w.Stat a.Path with
    | error e =>
      simp only [findSameFile, hs, ih, List.mem_cons, exists_eq_or_imp]
      constructor
      · intro h
        exact Or.inr h
      · rintro (⟨st, h1, _⟩ | h)
        · cases h1
        · exact h
    | ok st =>
      by_cases hsame : w.SameFile newStat st = true
      · simp only [findSameFile, hs, hsame, if_true, List.mem_cons, exists_eq_or_imp, true_iff]
        exact Or.inl ⟨st, rfl, hsame⟩
      · have hsf : w.SameFile newStat st = false := by simpa using hsame
        simp only [findSameFile, hs, hsf, Bool.false_eq_true, if_false, ih, List.mem_cons,
          exists_eq_or_imp]
        constructor
        · intro h
          exact Or.inr h
        · rintro (⟨st1, h1, h2⟩ | h)
          · cases h1
            exact (hsame h2).elim
          · exact h

/-- Whatever `AddInstallation` returns, the list afterwards is the list before
or the list before with the returned installation appended. -/
theorem addInstallation_cases (w : World) (ctx : GlobalContext) (i : Installations)
    (installPath profile : String) :
    ((i.AddInstallation w ctx installPath profile).1 = i ∧
        ∃ e, (i.AddInstallation w ctx installPath profile).2 = Except.error e) ∨
      ∃ absolutePath newStat,
        w.Abs installPath = Except.ok absolutePath ∧
        Installation.Validate w ctx { Path := absolutePath, Profile := profile } = none ∧
        w.Stat absolutePath = Except.ok newStat ∧
        findSameFile w newStat i.Installations = false ∧
        i.AddInstallation w ctx installPath profile =
          ({ i with Installations :=
                i.Installations ++ [{ Path := absolutePath, Profile := profile }] },
            Except.ok { Path := absolutePath, Profile := profile }) := by
  unfold Installations.AddInstallation
  cases habs : w.Abs installPath with
  | error e => exact Or.inl ⟨rfl, _, rfl⟩
  | ok absolutePath =>
    cases hval : Installation.Validate w ctx { Path := absolutePath, Profile := profile } with
    | some e => exact Or.inl (by simp [hval])
    | none =>
      cases hstat : w.Stat absolutePath with
      | error e => exact Or.inl (by simp [hval, hstat])
      | ok newStat =>
        cases hf : findSameFile w newStat i.Installations with
        | true => exact Or.inl (by simp [hval, hstat, hf])
        | false =>
          exact Or.inr ⟨absolutePath, newStat, rfl, hval, hstat, hf, by simp [hval, hstat, hf]⟩

/-! ### `Install`: auxiliary facts -/

theorem validate_of_getPlatform (w : World) (ctx : GlobalContext) (i : Installation)
    (platform : Platform) (hp : i.GetPlatform w ctx = Except.ok platform) :
    i.Validate w ctx = none := by
  unfold Installation.GetPlatform at hp
  cases hv : i.Validate w ctx with
  | none => rfl
  | some e =>
    rw [hv] at hp
    cases hp

/-- Every run of `Install` is one of the runs listed by `InstallRun`. -/
theorem install_run (w : World) (ctx : GlobalContext) (i : Installation) :
    InstallRun w ctx i (i.Install w ctx) := by
  unfold Installation.Install
  cases hv : i.Validate w ctx with
  | some e => exact InstallRun.validate e hv
  | none =>
    cases hp : i.GetPlatform w ctx with
    | error e => exact InstallRun.platform e hv hp
    | ok platform =>
      cases hr : readLockFile w (w.Join [i.Path, platform.LockfilePath]) with
      | error e =>
        simp only [hr]
        exact InstallRun.read platform e hv hp hr
      | ok prior =>
        cases hg : i.GetGameVersion w ctx with
        | error e =>
          simp only [hr]
          exact InstallRun.gameVersion platform prior e hv hp hr hg
        | ok gv =>
          cases hres : w.Resolve (ctx.Profiles.Profiles.lookup i.Profile) prior gv with
          | error e =>
            simp only [hr, hres]
            exact InstallRun.resolve platform prior gv e hv hp hr hg hres
          | ok lockfile =>
            cases hm : w.MkdirAll (w.Join [i.Path, "FactoryGame", "Mods"]) with
            | some e =>
              simp only [hr, hres, hm]
              exact InstallRun.mkdir platform prior gv lockfile e hv hp hr hg hres hm
            | none =>
              have hpair : installMods w (w.Join [i.Path, "FactoryGame", "Mods"]) lockfile
                  = ((installMods w (w.Join [i.Path, "FactoryGame", "Mods"]) lockfile).1,
                     (installMods w (w.Join [i.Path, "FactoryGame", "Mods"]) lockfile).2) := rfl
              cases hi : (installMods w (w.Join [i.Path, "FactoryGame", "Mods"]) lockfile).2 with
              | some e =>
                have := InstallRun.mods platform prior gv lockfile e hv hp hr hg hres hm hi
                rw [hi] at hpair
                simp only [hr, hres, hm]
                rw [hpair]
                exact this
              | none =>
                rw [hi] at hpair
                cases hj : w.MarshalIndent lockfile with
                | error e =>
                  have := InstallRun.marshal platform prior gv lockfile e hv hp hr hg hres hm hi hj
                  simp only [hr, hres, hm]
                  rw [hpair]
                  simp only [hj]
                  exact this
                | ok data =>
                  have := InstallRun.write platform prior gv lockfile data hv hp hr hg hres hm hi hj
                  simp only [hr, hres, hm]
                  rw [hpair]
                  simp only [hj]
                  cases hwf : w.WriteFile (w.Join [i.Path, platform.LockfilePath]) data with
                  | some e =>
                    rw [hwf] at this
                    exact this
                  | none =>
                    rw [hwf] at this
                    exact this

theorem allInstalled_cons_unlinked (w : World) (dir : String) (modReference : String)
    (version : LockedMod) (rest : LockFile) (hl : version.Link = "") :
    AllInstalled w dir ((modReference, version) :: rest) ↔ AllInstalled w dir rest := by
  unfold AllInstalled
  constructor
  · intro h entry he
    exact h entry (List.mem_cons_of_mem _ he)
  · intro h entry he hlink
    rcases List.mem_cons.1 he with rfl | he
    · exact (hlink hl).elim
    · exact h entry he hlink

theorem allInstalled_cons_linked (w : World) (dir : String) (modReference : String)
    (version : LockedMod) (rest : LockFile) (hl : version.Link ≠ "") :
    AllInstalled w dir ((modReference, version) :: rest) ↔
      (∃ reader size,
        w.DownloadOrCache (modReference ++ "_" ++ version.Version ++ ".zip") version.Hash
            version.Link = Except.ok (reader, size) ∧
          w.ExtractMod reader size (w.Join [dir, modReference]) = none) ∧
        AllInstalled w dir rest := by
  unfold AllInstalled
  constructor
  · intro h
    exact ⟨h (modReference, version) (List.mem_cons_self _ _) hl,
      fun entry he => h entry (List.mem_cons_of_mem _ he)⟩
  · rintro ⟨h1, h2⟩ entry he hlink
    rcases List.mem_cons.1 he with rfl | he
    · exact h1
    · exact h2 entry he hlink

/-- The loop of `Install` over the lockfile: which calls it makes. -/
theorem installMods_spec (w : World) (dir : String) (lockfile : LockFile) :
    downloadCalls (installMods w dir lockfile).1 <+: expectedDownloads lockfile ∧
    extractLocations (installMods w dir lockfile).1 <+: expectedLocations w dir lockfile ∧
    writeCalls (installMods w dir lockfile).1 = [] ∧
    resolvePriors (installMods w dir lockfile).1 = [] ∧
    ((installMods w dir lockfile).2 = none ↔ AllInstalled w dir lockfile) ∧
    ((installMods w dir lockfile).2 = none →
      downloadCalls (installMods w dir lockfile).1 = expectedDownloads lockfile ∧
      extractLocations (installMods w dir lockfile).1 = expectedLocations w dir lockfile) := by
  induction lockfile with
  | nil =>
    simp [installMods, downloadCalls, extractLocations, writeCalls, resolvePriors,
      expectedDownloads, expectedLocations, linkedEntries, AllInstalled]
  | cons entry rest ih =>
    obtain ⟨modReference, version⟩ := entry
    obtain ⟨ih1, ih2, ih3, ih4, ih5, ih6⟩ := ih
    by_cases hl : version.Link = ""
    · have hd : expectedDownloads ((modReference, version) :: rest) = expectedDownloads rest := by
        simp [expectedDownloads, linkedEntries, hl]
      have he : expectedLocations w dir ((modReference, version) :: rest)
          = expectedLocations w dir rest := by
        simp [expectedLocations, linkedEntries, hl]
      have hm : installMods w dir ((modReference, version) :: rest) = installMods w dir rest := by
        simp [installMods, hl]
      rw [hm, hd, he, allInstalled_cons_unlinked w dir modReference version rest hl]
      exact ⟨ih1, ih2, ih3, ih4, ih5, ih6⟩
    · have hd : expectedDownloads ((modReference, version) :: rest)
          = (modReference ++ "_" ++ version.Version ++ ".zip", version.Hash, version.Link)
              :: expectedDownloads rest := by
        simp [expectedDownloads, linkedEntries, hl]
      have he : expectedLocations w dir ((modReference, version) :: rest)
          = w.Join [dir, modReference] :: expectedLocations w dir rest := by
        simp [expectedLocations, linkedEntries, hl]
      rw [hd, he, allInstalled_cons_linked w dir modReference version rest hl]
      cases hdl : w.DownloadOrCache (modReference ++ "_" ++ version.Version ++ ".zip")
          version.Hash version.Link with
      | error e =>
        simp [installMods, hl, hdl, downloadCalls, extractLocations, writeCalls, resolvePriors]
      | ok rs =>
        obtain ⟨reader, size⟩ := rs
        cases hex : w.ExtractMod reader size (w.Join [dir, modReference]) with
        | some e =>
          simp [installMods, hl, hdl, hex, downloadCalls, extractLocations, writeCalls,
            resolvePriors]
        | none =>
          have hm : installMods w dir ((modReference, version) :: rest)
              = (Event.download (modReference ++ "_" ++ version.Version ++ ".zip") version.Hash
                    version.Link
                  :: Event.extract reader size (w.Join [dir, modReference])
                  :: (installMods w dir rest).1, (installMods w dir rest).2) := by
            simp [installMods, hl, hdl, hex]
          rw [hm]
          simp only [downloadCalls, extractLocations, writeCalls, resolvePriors]
          refine ⟨?_, ?_, ih3, ih4, ?_, ?_⟩
          · exact (List.prefix_cons_inj _).2 ih1
          · exact (List.prefix_cons_inj _).2 ih2
          · rw [ih5]
            constructor
            · intro h
              exact ⟨⟨reader, size, rfl, hex⟩, h⟩
            · intro h
              exact h.2
          · intro h
            obtain ⟨h1, h2⟩ := ih6 h
            rw [h1, h2]
            exact ⟨rfl, rfl⟩

theorem getLast?_cons_cons_concat (a b : Event) (l : List Event) (x : Event) :
    (a :: b :: (l ++ [x])).getLast? = some x := by
  have h : a :: b :: (l ++ [x]) = (a :: b :: l) ++ [x] := rfl
  rw [h, List.getLast?_concat]

theorem downloadCalls_append (a b : List Event) :
    downloadCalls (a ++ b) = downloadCalls a ++ downloadCalls b := by
  induction a with
  | nil => rfl
  | cons e rest ih => cases e <;> simp [downloadCalls, ih]

theorem extractLocations_append (a b : List Event) :
    extractLocations (a ++ b) = extractLocations a ++ extractLocations b := by
  induction a with
  | nil => rfl
  | cons e rest ih => cases e <;> simp [extractLocations, ih]

theorem writeCalls_append (a b : List Event) :
    writeCalls (a ++ b) = writeCalls a ++ writeCalls b := by
  induction a with
  | nil => rfl
  | cons e rest ih => cases e <;> simp [writeCalls, ih]

theorem resolvePriors_append (a b : List Event) :
    resolvePriors (a ++ b) = resolvePriors a ++ resolvePriors b := by
  induction a with
  | nil => rfl
  | cons e rest ih => cases e <;> simp [resolvePriors, ih]

theorem mem_resolvePriors_of_mem (profile : Option Profile) (prior : Option LockFile) (gv : Int)
    (tr : List Event) (h : Event.resolve profile prior gv ∈ tr) : prior ∈ resolvePriors tr := by
  induction tr with
  | nil => cases h
  | cons e rest ih =>
    rcases List.mem_cons.1 h with rfl | h1
    · simp [resolvePriors]
    · have := ih h1
      cases e <;> simp [resolvePriors, this]

theorem fileAfter_of_no_writes (path : String) (before : Option String) (tr : List Event)
    (h : writeCalls tr = []) : fileAfter path before tr = before := by
  induction tr with
  | nil => rfl
  | cons e rest ih =>
    cases e with
    | writeFile p d => simp [writeCalls] at h
    | resolve _ _ _ => exact ih (by simpa [writeCalls] using h)
    | mkdirAll _ => exact ih (by simpa [writeCalls] using h)
    | download _ _ _ => exact ih (by simpa [writeCalls] using h)
    | extract _ _ _ => exact ih (by simpa [writeCalls] using h)

theorem resolve_not_mem_installMods (w : World) (dir : String) (lockfile : LockFile)
    (profile : Option Profile) (prior : Option LockFile) (gv : Int) :
    Event.resolve profile prior gv ∉ (installMods w dir lockfile).1 := by
  intro h
  have := mem_resolvePriors_of_mem profile prior gv _ h
  rw [(installMods_spec w dir lockfile).2.2.2.1] at this
  cases this

/-- An error returned by the loop over the lockfile is a download or an
extraction error. -/
theorem installMods_error_shape (w : World) (dir : String) (lockfile : LockFile) (e : Error)
    (h : (installMods w dir lockfile).2 = some e) :
    ∃ c s, e = Error.wrap c ("failed to download " ++ s) ∨
      e = Error.wrap c ("could not extract " ++ s) := by
  induction lockfile with
  | nil => simp [installMods] at h
  | cons entry rest ih =>
    obtain ⟨modReference, version⟩ := entry
    by_cases hl : version.Link = ""
    · have hm : installMods w dir ((modReference, version) :: rest) = installMods w dir rest := by
        simp [installMods, hl]
      rw [hm] at h
      exact ih h
    · cases hdl : w.DownloadOrCache (modReference ++ "_" ++ version.Version ++ ".zip")
          version.Hash version.Link with
      | error c =>
        simp only [installMods, hl, hdl, ne_eq, not_false_eq_true, if_true,
          Option.some.injEq] at h
        refine ⟨c, modReference ++ " from: " ++ version.Link, Or.inl ?_⟩
        rw [← h]
        simp [String.append_assoc]
      | ok rs =>
        obtain ⟨reader, size⟩ := rs
        cases hex : w.ExtractMod reader size (w.Join [dir, modReference]) with
        | some c =>
          simp only [installMods, hl, hdl, hex, ne_eq, not_false_eq_true, if_true,
            Option.some.injEq] at h
          exact ⟨c, modReference, Or.inr h.symm⟩
        | none =>
          simp only [installMods, hl, hdl, hex, ne_eq, not_false_eq_true, if_true] at h
          exact ih h

theorem readLockFile_cases (w : World) (path : String) :
    (∀ e, w.ReadFile path = Except.error e → IsNotExist e = true →
      readLockFile w path = Except.ok none) ∧
    (∀ e, w.ReadFile path = Except.error e → IsNotExist e = false →
      readLockFile w path = Except.error (Error.wrap e "failed reading lockfile")) ∧
    (∀ json e, w.ReadFile path = Except.ok json → w.UnmarshalLockFile json = Except.error e →
      readLockFile w path = Except.error (Error.wrap e "failed parsing lockfile")) ∧
    (∀ json prior, w.ReadFile path = Except.ok json →
      w.UnmarshalLockFile json = Except.ok prior → readLockFile w path = Except.ok prior) := by
  refine ⟨?_, ?_, ?_, ?_⟩
  · intro e h1 h2
    simp [readLockFile, h1, h2]
  · intro e h1 h2
    simp [readLockFile, h1, h2]
  · intro json e h1 h2
    simp [readLockFile, h1, h2]
  · intro json prior h1 h2
    simp [readLockFile, h1, h2]

/-- A failure of the lockfile step ends `Install` before any call is made. -/
theorem install_of_read_error (w : World) (ctx : GlobalContext) (i : Installation)
    (platform : Platform) (e : Error) (hp : i.GetPlatform w ctx = Except.ok platform)
    (hr : readLockFile w (w.Join [i.Path, platform.LockfilePath]) = Except.error e) :
    i.Install w ctx = ⟨[], some e⟩ := by
  have hv := validate_of_getPlatform w ctx i platform hp
  simp [Installation.Install, hv, hp, hr]

/-- Once the lockfile step gave `prior`, `Install` goes on to game-version
detection and, if that succeeds, to resolution with `prior`; it does not
return a lockfile reading or parsing error. -/
theorem install_of_prior (w : World) (ctx : GlobalContext) (i : Installation)
    (platform : Platform) (prior : Option LockFile)
    (hp : i.GetPlatform w ctx = Except.ok platform)
    (hr : readLockFile w (w.Join [i.Path, platform.LockfilePath]) = Except.ok prior) :
    (∀ q ∈ resolvePriors (i.Install w ctx).trace, q = prior) ∧
    ((∃ e, i.GetGameVersion w ctx = Except.error e ∧
        i.Install w ctx = ⟨[], some (Error.wrap e "failed to detect game version")⟩) ∨
      ∃ gv rest, i.GetGameVersion w ctx = Except.ok gv ∧
        (i.Install w ctx).trace
          = Event.resolve (ctx.Profiles.Profiles.lookup i.Profile) prior gv :: rest) ∧
    (∀ c, (i.Install w ctx).err ≠ some (Error.wrap c "failed reading lockfile") ∧
      (i.Install w ctx).err ≠ some (Error.wrap c "failed parsing lockfile")) := by
  have hrun := install_run w ctx i
  generalize i.Install w ctx = o at hrun
  cases hrun with
  | validate e hv =>
    rw [validate_of_getPlatform w ctx i platform hp] at hv
    cases hv
  | platform e hv hp1 =>
    rw [hp] at hp1
    cases hp1
  | read platform1 e hv hp1 hr1 =>
    rw [hp] at hp1
    cases hp1
    rw [hr] at hr1
    cases hr1
  | gameVersion platform1 prior1 e hv hp1 hr1 hg =>
    refine ⟨by simp [resolvePriors], Or.inl ⟨e, hg, rfl⟩, fun c => ⟨?_, ?_⟩⟩ <;>
      simp
  | resolve platform1 prior1 gv e hv hp1 hr1 hg hres =>
    rw [hp] at hp1
    cases hp1
    rw [hr] at hr1
    cases hr1
    refine ⟨by simp [resolvePriors], Or.inr ⟨gv, [], hg, rfl⟩, fun c => ⟨?_, ?_⟩⟩ <;>
      simp
  | mkdir platform1 prior1 gv lockfile e hv hp1 hr1 hg hres hm =>
    rw [hp] at hp1
    cases hp1
    rw [hr] at hr1
    cases hr1
    refine ⟨by simp [resolvePriors], Or.inr ⟨gv, _, hg, rfl⟩, fun c => ⟨?_, ?_⟩⟩ <;>
      simp
  | mods platform1 prior1 gv lockfile e hv hp1 hr1 hg hres hm hi =>
    rw [hp] at hp1
    cases hp1
    rw [hr] at hr1
    cases hr1
    obtain ⟨c1, s, he | he⟩ := installMods_error_shape w _ lockfile e hi
    · refine ⟨by simp [resolvePriors, (installMods_spec w _ lockfile).2.2.2.1],
        Or.inr ⟨gv, _, hg, rfl⟩, fun c => ⟨?_, ?_⟩⟩ <;>
      · subst he
        intro h
        simp only [Option.some.injEq, Error.wrap.injEq] at h
        have := congrArg String.data h.2
        simp at this
    · refine ⟨by simp [resolvePriors, (installMods_spec w _ lockfile).2.2.2.1],
        Or.inr ⟨gv, _, hg, rfl⟩, fun c => ⟨?_, ?_⟩⟩ <;>
      · subst he
        intro h
        simp only [Option.some.injEq, Error.wrap.injEq] at h
        have := congrArg String.data h.2
        simp at this
  | marshal platform1 prior1 gv lockfile e hv hp1 hr1 hg hres hm hi hj =>
    rw [hp] at hp1
    cases hp1
    rw [hr] at hr1
    cases hr1
    refine ⟨by simp [resolvePriors, (installMods_spec w _ lockfile).2.2.2.1],
      Or.inr ⟨gv, _, hg, rfl⟩, fun c => ⟨?_, ?_⟩⟩ <;>
      simp
  | write platform1 prior1 gv lockfile data hv hp1 hr1 hg hres hm hi hj =>
    rw [hp] at hp1
    cases hp1
    rw [hr] at hr1
    cases hr1
    refine ⟨by simp [resolvePriors, resolvePriors_append,
        (installMods_spec w _ lockfile).2.2.2.1],
      Or.inr ⟨gv, _, hg, rfl⟩, fun c => ⟨?_, ?_⟩⟩ <;>
    · cases w.WriteFile (w.Join [i.Path, platform.LockfilePath]) data <;> simp

/-! ### The loop over the lockfile: where it stops -/

/-- Entries without a link play no part in the loop. -/
theorem installMods_linkedEntries (w : World) (dir : String) (lockfile : LockFile) :
    installMods w dir (linkedEntries lockfile) = installMods w dir lockfile := by
  induction lockfile with
  | nil => rfl
  | cons entry rest ih =>
    obtain ⟨modReference, version⟩ := entry
    by_cases hl : version.Link = ""
    · have h1 : linkedEntries ((modReference, version) :: rest) = linkedEntries rest := by
        simp [linkedEntries, hl]
      have h2 : installMods w dir ((modReference, version) :: rest) = installMods w dir rest := by
        simp [installMods, hl]
      rw [h1, h2, ih]
    · have h1 : linkedEntries ((modReference, version) :: rest)
          = (modReference, version) :: linkedEntries rest := by
        simp [linkedEntries, hl]
      rw [h1]
      simp only [installMods, ne_eq, hl, not_false_eq_true, if_true, ih]

/-- Entries that download and extract without error contribute their calls and
hand over to the rest of the lockfile. -/
theorem installMods_append (w : World) (dir : String) (done tail : LockFile)
    (hlinked : ∀ x ∈ done, x.2.Link ≠ "") (hall : AllInstalled w dir done) :
    installMods w dir (done ++ tail)
      = (done.flatMap (entryCalls w dir) ++ (installMods w dir tail).1,
          (installMods w dir tail).2) := by
  induction done with
  | nil => rfl
  | cons entry done1 ih =>
    obtain ⟨modReference, version⟩ := entry
    have hl : version.Link ≠ "" := hlinked (modReference, version) (List.mem_cons_self _ _)
    obtain ⟨⟨reader, size, hdl, hex⟩, hall1⟩ :=
      (allInstalled_cons_linked w dir modReference version done1 hl).1 hall
    have ih1 := ih (fun x hx => hlinked x (List.mem_cons_of_mem _ hx)) hall1
    have hcalls : entryCalls w dir (modReference, version)
        = [Event.download (modReference ++ "_" ++ version.Version ++ ".zip") version.Hash
              version.Link,
            Event.extract reader size (w.Join [dir, modReference])] := by
      simp [entryCalls, hdl]
    have hcons : (modReference, version) :: done1 ++ tail
        = (modReference, version) :: (done1 ++ tail) := rfl
    rw [hcons, List.flatMap_cons, hcalls]
    simp only [installMods, ne_eq, hl, not_false_eq_true, if_true, hdl, hex, ih1]
    simp

/-- The loop stops at the first entry with a link whose download or extraction
fails: the entries before it are processed in full, then come the failing
download, or the download and the failing extraction, and nothing more. -/
theorem installMods_stops (w : World) (dir : String) (lockfile : LockFile)
    (done : LockFile) (entry : String × LockedMod) (rest : LockFile)
    (hdec : linkedEntries lockfile = done ++ entry :: rest)
    (hall : AllInstalled w dir done) :
    (∀ e,
      w.DownloadOrCache (entry.1 ++ "_" ++ entry.2.Version ++ ".zip") entry.2.Hash entry.2.Link
        = Except.error e →
      installMods w dir lockfile
        = (done.flatMap (entryCalls w dir)
            ++ [Event.download (entry.1 ++ "_" ++ entry.2.Version ++ ".zip") entry.2.Hash
                  entry.2.Link],
            some (Error.wrap e
              ("failed to download " ++ entry.1 ++ " from: " ++ entry.2.Link)))) ∧
    (∀ reader size e,
      w.DownloadOrCache (entry.1 ++ "_" ++ entry.2.Version ++ ".zip") entry.2.Hash entry.2.Link
        = Except.ok (reader, size) →
      w.ExtractMod reader size (w.Join [dir, entry.1]) = some e →
      installMods w dir lockfile
        = (done.flatMap (entryCalls w dir)
            ++ [Event.download (entry.1 ++ "_" ++ entry.2.Version ++ ".zip") entry.2.Hash
                  entry.2.Link,
                Event.extract reader size (w.Join [dir, entry.1])],
            some (Error.wrap e ("could not extract " ++ entry.1)))) := by
  have hmem : ∀ x ∈ done ++ entry :: rest, x.2.Link ≠ "" := by
    intro x hx
    rw [← hdec] at hx
    have := (List.mem_filter.1 hx).2
    simpa using this
  have hlinked : ∀ x ∈ done, x.2.Link ≠ "" := fun x hx => hmem x (List.mem_append_left _ hx)
  have hl : entry.2.Link ≠ "" := hmem entry (List.mem_append_right _ (List.mem_cons_self _ _))
  have happ := installMods_append w dir done (entry :: rest) hlinked hall
  rw [← hdec, installMods_linkedEntries] at happ
  obtain ⟨modReference, version⟩ := entry
  refine ⟨?_, ?_⟩
  · intro e hdl
    rw [happ]
    simp only [installMods, ne_eq, hl, not_false_eq_true, if_true, hdl]
  · intro reader size e hdl hex
    rw [happ]
    simp only [installMods, ne_eq, hl, not_false_eq_true, if_true, hdl, hex]

/-- When every entry with a link downloads and extracts, the loop makes the
calls of all of them, in order, and returns no error. -/
theorem installMods_all (w : World) (dir : String) (lockfile : LockFile)
    (hall : AllInstalled w dir lockfile) :
    installMods w dir lockfile = ((linkedEntries lockfile).flatMap (entryCalls w dir), none) := by
  have hlinked : ∀ x ∈ linkedEntries lockfile, x.2.Link ≠ "" := by
    intro x hx
    have := (List.mem_filter.1 hx).2
    simpa using this
  have hall1 : AllInstalled w dir (linkedEntries lockfile) := by
    intro x hx hl
    exact hall x (List.mem_filter.1 hx).1 hl
  have happ := installMods_append w dir (linkedEntries lockfile) [] hlinked hall1
  rw [List.append_nil, installMods_linkedEntries] at happ
  rw [happ]
  simp [installMods]

/-! ## The claims -/

/-- C1 (as stated, refuted). `1.0.0` is matched and carries no operator, `=` is
one of the operators of the claim, and `=1.0.0` is not matched. -/
theorem equals_operator_not_matched :
    "=" ∈ specOperators ∧ SemVerRegex.MatchString "1.0.0" = true ∧
      hasOperator "1.0.0" = false ∧ SemVerRegex.MatchString ("=" ++ "1.0.0") = false := by
  decide

/-- C1 (amended). For every operator among `<=`, `<`, `>`, `>=`, `^` and every
string without operator that `SemVerRegex` matches, `SemVerRegex` also matches
the operator followed by the string. -/
theorem operator_then_version_matches (op : String) (hop : op ∈ regexOperators) (v : String)
    (hm : SemVerRegex.MatchString v = true) (hno : hasOperator v = false) :
    SemVerRegex.MatchString (op ++ v) = true := by
  have hcore := core_of_match_of_no_operator v hm hno
  unfold SemVerRegex.MatchString
  rw [Regex.rmatch_iff]
  unfold SemVerRegex
  rw [Regex.matches_seq_iff]
  refine ⟨op.toList, v.toList, ?_, ?_, hcore⟩
  · exact String.data_append op v
  · rw [Regex.matches_opt_iff]
    exact Or.inl (matches_opGroup_of_mem op hop)

/-- Witness for C1 (amended): `>=` in front of `1.2.3-rc.1`. -/
theorem operator_then_version_matches_witness :
    SemVerRegex.MatchString (">=" ++ "1.2.3-rc.1") = true :=
  operator_then_version_matches ">=" (by decide) "1.2.3-rc.1" (by decide) (by decide)

/-- C2 (the code at the failing input). The version `1.10.0` is not matched,
although two-digit major and patch components are (`10.0.10`). -/
theorem minor_with_two_digits_not_matched :
    SemVerRegex.MatchString "1.10.0" = false ∧ SemVerRegex.MatchString "10.0.10" = true := by
  decide

/-- C3 (the code at the failing input). The string `1.1d.0`, whose minor
component is not a number, is matched, although a letter in the major or patch
component is refused (`1d.1.0`, `1.1.0d`). -/
theorem letter_in_minor_matched :
    SemVerRegex.MatchString "1.1d.0" = true ∧ SemVerRegex.MatchString "1d.1.0" = false ∧
      SemVerRegex.MatchString "1.1.0d" = false := by
  decide

/-- C8. `DeleteInstallation p` on a list that holds an installation with path
`p` returns no error and removes exactly the first such installation, keeping
the others in order; on a list without one it returns "installation not found"
and leaves the list as it was. -/
theorem deleteInstallation_spec (i : Installations) (p : String) :
    ((∃ x ∈ i.Installations, x.Path = p) →
      ∃ pre x post, i.Installations = pre ++ x :: post ∧ x.Path = p ∧
        (∀ y ∈ pre, y.Path ≠ p) ∧
        i.DeleteInstallation p = ({ i with Installations := pre ++ post }, none)) ∧
    ((∀ x ∈ i.Installations, x.Path ≠ p) →
      i.DeleteInstallation p = (i, some (Error.new "installation not found"))) := by
  rcases findIndexFrom_spec p i.Installations 0 (le_refl 0) with
    ⟨h1, h2⟩ | ⟨pre, x, post, hl, hx, hpre, hidx⟩
  · refine ⟨?_, ?_⟩
    · rintro ⟨x, hx, hxp⟩
      exact (h2 x hx hxp).elim
    · intro _
      simp [Installations.DeleteInstallation, h1]
  · refine ⟨?_, ?_⟩
    · intro _
      refine ⟨pre, x, post, hl, hx, hpre, ?_⟩
      have hne : ¬ ((0 : Int) + (pre.length : Int) = -1) := by omega
      simp only [Installations.DeleteInstallation, hidx, if_neg hne]
      have htn : ((0 : Int) + (pre.length : Int)).toNat = pre.length := by simp
      rw [htn, hl]
      simp
    · intro hall
      exact (hall x (by simp [hl]) hx).elim

/-- Witness for C8: deleting `/b` from a list that has it twice, and deleting
`/zzz`, which it does not have. -/
theorem deleteInstallation_spec_witness :
    (∃ pre x post, demoInstallations.Installations = pre ++ x :: post ∧ x.Path = "/b" ∧
        (∀ y ∈ pre, y.Path ≠ "/b") ∧
        demoInstallations.DeleteInstallation "/b"
          = ({ demoInstallations with Installations := pre ++ post }, none)) ∧
    demoInstallations.DeleteInstallation "/zzz"
      = (demoInstallations, some (Error.new "installation not found")) ∧
    (demoInstallations.DeleteInstallation "/b").1.Installations
      = [⟨"/a", "x"⟩, ⟨"/c", "z"⟩, ⟨"/b", "w"⟩] :=
  ⟨(deleteInstallation_spec demoInstallations "/b").1 ⟨⟨"/b", "y"⟩, by decide, rfl⟩,
   (deleteInstallation_spec demoInstallations "/zzz").2 (by decide),
   by decide⟩

/-- C7. `SetProfile(ctx, p)` returns no error exactly when some profile of the
context has name `p`, and then the installation's profile is `p` (its path is
untouched); otherwise it returns an error and the installation is unchanged.
`AddInstallation` returns an installation only with the given profile, which
is then the name of a profile of the context; when no profile has that name,
`Validate` fails with "profile not found", `AddInstallation` returns an error
and the list is unchanged. So an installation whose profile exists still has
an existing profile after `SetProfile`, and a list whose installations all
have an existing profile is still such a list after `AddInstallation`. -/
theorem profile_association (w : World) (ctx : GlobalContext) (i : Installation)
    (l : Installations) (installPath profile : String) :
    (((i.SetProfile ctx profile).2 = none ↔ ∃ p ∈ ctx.Profiles.Profiles, p.2.Name = profile) ∧
      ((∃ p ∈ ctx.Profiles.Profiles, p.2.Name = profile) →
        i.SetProfile ctx profile = ({ Path := i.Path, Profile := profile }, none)) ∧
      ((¬ ∃ p ∈ ctx.Profiles.Profiles, p.2.Name = profile) →
        i.SetProfile ctx profile
          = (i, some (Error.new ("could not find profile: " ++ profile))))) ∧
    ((∀ inst, (l.AddInstallation w ctx installPath profile).2 = Except.ok inst →
        inst.Profile = profile ∧ ∃ p ∈ ctx.Profiles.Profiles, p.2.Name = inst.Profile) ∧
      ((¬ ∃ p ∈ ctx.Profiles.Profiles, p.2.Name = profile) →
        (∀ path, Installation.Validate w ctx { Path := path, Profile := profile }
            = some (Error.new "profile not found")) ∧
        (l.AddInstallation w ctx installPath profile).1 = l ∧
        ∃ e, (l.AddInstallation w ctx installPath profile).2 = Except.error e)) ∧
    ((ctx.hasProfile i.Profile = true →
        ctx.hasProfile (i.SetProfile ctx profile).1.Profile = true) ∧
      (AllAssociated ctx l.Installations →
        AllAssociated ctx (l.AddInstallation w ctx installPath profile).1.Installations)) := by
  have hset : ∀ b, ctx.hasProfile profile = b →
      i.SetProfile ctx profile =
        if b then ({ Path := i.Path, Profile := profile }, none)
        else (i, some (Error.new ("could not find profile: " ++ profile))) := by
    intro b hb
    cases b <;> simp [Installation.SetProfile, hb]
  refine ⟨⟨?_, ?_, ?_⟩, ⟨?_, ?_⟩, ?_, ?_⟩
  · rw [← hasProfile_iff]
    cases hb : ctx.hasProfile profile <;> simp [hset _ hb]
  · intro h
    rw [hset true ((hasProfile_iff ctx profile).2 h)]
    rfl
  · intro h
    have hb : ctx.hasProfile profile = false := by
      cases hb : ctx.hasProfile profile
      · rfl
      · exact (h ((hasProfile_iff ctx profile).1 hb)).elim
    rw [hset false hb]
    rfl
  · intro inst hinst
    rcases addInstallation_cases w ctx l installPath profile with
      ⟨_, e, he⟩ | ⟨absolutePath, newStat, _, hval, _, _, heq⟩
    · rw [he] at hinst
      cases hinst
    · rw [heq] at hinst
      cases hinst
      exact ⟨rfl, (hasProfile_iff ctx profile).1 (hasProfile_of_validate w ctx _ hval)⟩
  · intro h
    have hb : ctx.hasProfile profile = false := by
      cases hb : ctx.hasProfile profile
      · rfl
      · exact (h ((hasProfile_iff ctx profile).1 hb)).elim
    refine ⟨fun path => validate_of_no_profile w ctx _ hb, ?_⟩
    rcases addInstallation_cases w ctx l installPath profile with
      ⟨h1, h2⟩ | ⟨absolutePath, newStat, _, hval, _, _, _⟩
    · exact ⟨h1, h2⟩
    · have := hasProfile_of_validate w ctx _ hval
      rw [hb] at this
      cases this
  · intro hi
    cases hb : ctx.hasProfile profile
    · rw [hset false hb]
      exact hi
    · rw [hset true hb]
      exact hb
  · intro hall
    rcases addInstallation_cases w ctx l installPath profile with
      ⟨h1, _⟩ | ⟨absolutePath, newStat, _, hval, _, _, heq⟩
    · rw [h1]
      exact hall
    · rw [heq]
      intro x hx
      rcases List.mem_append.1 hx with hx | hx
      · exact hall x hx
      · rw [List.mem_singleton] at hx
        subst hx
        exact hasProfile_of_validate w ctx _ hval

/-- Witness for C7: in the demo context, `main` is a profile and `nope` is not. -/
theorem profile_association_witness :
    demoInstallation.SetProfile demoCtx "main" = ({ Path := "/game", Profile := "main" }, none) ∧
    demoInstallation.SetProfile demoCtx "nope"
      = (demoInstallation, some (Error.new "could not find profile: nope")) ∧
    (demoInstallations.AddInstallation demoWorld demoCtx "/game" "nope").1 = demoInstallations :=
  ⟨(profile_association demoWorld demoCtx demoInstallation demoInstallations "/game" "main").1.2.1
      ⟨("main", ⟨"main"⟩), by decide, rfl⟩,
   (profile_association demoWorld demoCtx demoInstallation demoInstallations "/game" "nope").1.2.2
      (by decide),
   ((profile_association demoWorld demoCtx demoInstallation demoInstallations "/game" "nope").2.1.2
      (by decide)).2.1⟩

/-- C10. For non-empty registry pages followed by an empty page, `NewMods`
ends; its `k`-th item is titled with the name of the `k`-th mod fetched, the
variables captured by its `Activate` closure add up to `k`, which is within
`allMods`, and activating it hands that same mod to the mod menu. -/
theorem newMods_item_opens_its_mod (pages : List (List Mod)) (rest : List (List Mod))
    (hne : ∀ p ∈ pages, p ≠ []) :
    ∃ items allMods, NewMods (pages ++ [] :: rest) = some (items, allMods) ∧
      allMods = pages.flatten ∧ items.length = allMods.length ∧
      ∀ k, k < allMods.length → ∃ item mod, items[k]? = some item ∧ allMods[k]? = some mod ∧
        item.Title = mod.Name ∧ item.currentOffset + item.currentI = k ∧
        item.Activate allMods
          = some { Name := mod.Name, ID := mod.Id, Reference := mod.Mod_reference } := by
  obtain ⟨items, he, hlen, hk⟩ := fetchMods_spec pages rest hne [] [] ⟨rfl, by simp⟩
  simp only [List.nil_append, List.length_nil] at he hlen hk
  refine ⟨items, pages.flatten, he, rfl, hlen, ?_⟩
  intro k hklt
  have hki : k < items.length := hlen ▸ hklt
  have h1 : items[k]? = some items[k] := List.getElem?_eq_getElem hki
  have h2 : pages.flatten[k]? = some pages.flatten[k] := List.getElem?_eq_getElem hklt
  obtain ⟨hsum, hname⟩ := hk k items[k] h1
  rw [h2] at hname
  simp only [Option.map_some', Option.some.injEq] at hname
  refine ⟨items[k], pages.flatten[k], h1, h2, hname.symm, hsum, ?_⟩
  simp [SimpleItem.Activate, hsum, h2]

/-- Witness for C10: two pages of two and one mods, then the empty page. -/
theorem newMods_item_opens_its_mod_witness :
    ∃ items allMods,
      NewMods ([[⟨"1", "Alpha", "alpha"⟩, ⟨"2", "Beta", "beta"⟩], [⟨"3", "Gamma", "gamma"⟩]]
          ++ [] :: []) = some (items, allMods) ∧
      allMods = [[⟨"1", "Alpha", "alpha"⟩, ⟨"2", "Beta", "beta"⟩],
          [(⟨"3", "Gamma", "gamma"⟩ : Mod)]].flatten ∧
      items.length = allMods.length ∧
      ∀ k, k < allMods.length → ∃ item mod, items[k]? = some item ∧ allMods[k]? = some mod ∧
        item.Title = mod.Name ∧ item.currentOffset + item.currentI = k ∧
        item.Activate allMods
          = some { Name := mod.Name, ID := mod.Id, Reference := mod.Mod_reference } :=
  newMods_item_opens_its_mod
    [[⟨"1", "Alpha", "alpha"⟩, ⟨"2", "Beta", "beta"⟩], [⟨"3", "Gamma", "gamma"⟩]] []
    (by decide)

/-- C5. If `Install` calls `WriteFile` at all, it does so once, as its last
call, on the lockfile path, after validation, platform detection, reading the
prior lockfile, game-version detection, resolution, the creation of the mods
directory, every download and extraction and the serialisation succeeded.
Hence whenever `Install` returns an error other than that of the final write
itself, nothing was written and every file is as it was before. -/
theorem install_no_partial_output (w : World) (ctx : GlobalContext) (i : Installation) :
    (∀ path data, (path, data) ∈ writeCalls (i.Install w ctx).trace →
      ∃ platform prior gv lockfile,
        i.Validate w ctx = none ∧
        i.GetPlatform w ctx = Except.ok platform ∧
        path = w.Join [i.Path, platform.LockfilePath] ∧
        readLockFile w path = Except.ok prior ∧
        i.GetGameVersion w ctx = Except.ok gv ∧
        w.Resolve (ctx.Profiles.Profiles.lookup i.Profile) prior gv = Except.ok lockfile ∧
        w.MkdirAll (w.Join [i.Path, "FactoryGame", "Mods"]) = none ∧
        AllInstalled w (w.Join [i.Path, "FactoryGame", "Mods"]) lockfile ∧
        w.MarshalIndent lockfile = Except.ok data ∧
        (i.Install w ctx).trace.getLast? = some (Event.writeFile path data) ∧
        writeCalls (i.Install w ctx).trace = [(path, data)]) ∧
    (∀ e, (i.Install w ctx).err = some e →
      (∀ c, e ≠ Error.wrap c "failed writing lockfile") →
      writeCalls (i.Install w ctx).trace = [] ∧
      ∀ path before, fileAfter path before (i.Install w ctx).trace = before) := by
  have hrun := install_run w ctx i
  generalize i.Install w ctx = o at hrun
  have key : writeCalls o.trace = [] ∨
      ∃ platform prior gv lockfile data,
        i.Validate w ctx = none ∧
        i.GetPlatform w ctx = Except.ok platform ∧
        readLockFile w (w.Join [i.Path, platform.LockfilePath]) = Except.ok prior ∧
        i.GetGameVersion w ctx = Except.ok gv ∧
        w.Resolve (ctx.Profiles.Profiles.lookup i.Profile) prior gv = Except.ok lockfile ∧
        w.MkdirAll (w.Join [i.Path, "FactoryGame", "Mods"]) = none ∧
        AllInstalled w (w.Join [i.Path, "FactoryGame", "Mods"]) lockfile ∧
        w.MarshalIndent lockfile = Except.ok data ∧
        o.trace.getLast? = some (Event.writeFile (w.Join [i.Path, platform.LockfilePath]) data) ∧
        writeCalls o.trace = [(w.Join [i.Path, platform.LockfilePath], data)] ∧
        (o.err = none ∨ ∃ c, o.err = some (Error.wrap c "failed writing lockfile")) := by
    cases hrun with
    | validate e hv => exact Or.inl rfl
    | platform e hv hp => exact Or.inl rfl
    | read platform e hv hp hr => exact Or.inl rfl
    | gameVersion platform prior e hv hp hr hg => exact Or.inl rfl
    | resolve platform prior gv e hv hp hr hg hres => exact Or.inl rfl
    | mkdir platform prior gv lockfile e hv hp hr hg hres hm => exact Or.inl rfl
    | mods platform prior gv lockfile e hv hp hr hg hres hm hi =>
      exact Or.inl (by simp [writeCalls, (installMods_spec w _ lockfile).2.2.1])
    | marshal platform prior gv lockfile e hv hp hr hg hres hm hi hj =>
      exact Or.inl (by simp [writeCalls, (installMods_spec w _ lockfile).2.2.1])
    | write platform prior gv lockfile data hv hp hr hg hres hm hi hj =>
      refine Or.inr ⟨platform, prior, gv, lockfile, data, hv, hp, hr, hg, hres, hm,
        ((installMods_spec w _ lockfile).2.2.2.2.1).1 hi, hj, ?_, ?_, ?_⟩
      · exact getLast?_cons_cons_concat _ _ _ _
      · simp [writeCalls, writeCalls_append, (installMods_spec w _ lockfile).2.2.1]
      · cases w.WriteFile (w.Join [i.Path, platform.LockfilePath]) data with
        | none => exact Or.inl rfl
        | some c => exact Or.inr ⟨c, rfl⟩
  refine ⟨?_, ?_⟩
  · intro path data hmem
    rcases key with h0 | ⟨platform, prior, gv, lockfile, data1, hv, hp, hr, hg, hres, hm, hall,
      hj, hlast, hwc, _⟩
    · rw [h0] at hmem
      cases hmem
    · rw [hwc] at hmem
      simp only [List.mem_singleton, Prod.mk.injEq] at hmem
      obtain ⟨rfl, rfl⟩ := hmem
      exact ⟨platform, prior, gv, lockfile, hv, hp, rfl, hr, hg, hres, hm, hall, hj, hlast, hwc⟩
  · intro e he hne
    rcases key with h0 | ⟨platform, prior, gv, lockfile, data1, _, _, _, _, _, _, _, _, _, _,
      herr⟩
    · exact ⟨h0, fun path before => fileAfter_of_no_writes path before o.trace h0⟩
    · rcases herr with h1 | ⟨c, h1⟩
      · rw [h1] at he
        cases he
      · rw [h1] at he
        cases he
        exact (hne c rfl).elim

/-- Witness for C5: with the download of `A` failing, `Install` returns that
error, has written nothing, and the absent lockfile is still absent; with
nothing failing, the one write is the last call. -/
theorem install_no_partial_output_witness :
    (demoInstallation.Install failingDownloadWorld demoCtx).err
      = some (Error.wrap (Error.ext false "connection reset")
          "failed to download A from: https://a") ∧
    (writeCalls (demoInstallation.Install failingDownloadWorld demoCtx).trace = [] ∧
      ∀ path before,
        fileAfter path before (demoInstallation.Install failingDownloadWorld demoCtx).trace
          = before) ∧
    ∃ platform prior gv lockfile,
      demoInstallation.Validate demoWorld demoCtx = none ∧
      demoInstallation.GetPlatform demoWorld demoCtx = Except.ok platform ∧
      "/game/lock.json" = demoWorld.Join [demoInstallation.Path, platform.LockfilePath] ∧
      readLockFile demoWorld "/game/lock.json" = Except.ok prior ∧
      demoInstallation.GetGameVersion demoWorld demoCtx = Except.ok gv ∧
      demoWorld.Resolve (demoCtx.Profiles.Profiles.lookup demoInstallation.Profile) prior gv
        = Except.ok lockfile ∧
      demoWorld.MkdirAll (demoWorld.Join [demoInstallation.Path, "FactoryGame", "Mods"]) = none ∧
      AllInstalled demoWorld (demoWorld.Join [demoInstallation.Path, "FactoryGame", "Mods"])
        lockfile ∧
      demoWorld.MarshalIndent lockfile = Except.ok "lock-json" ∧
      (demoInstallation.Install demoWorld demoCtx).trace.getLast?
        = some (Event.writeFile "/game/lock.json" "lock-json") ∧
      writeCalls (demoInstallation.Install demoWorld demoCtx).trace
        = [("/game/lock.json", "lock-json")] :=
  ⟨by decide,
   (install_no_partial_output failingDownloadWorld demoCtx demoInstallation).2
      (Error.wrap (Error.ext false "connection reset") "failed to download A from: https://a")
      (by decide) (fun c h => Error.noConfusion h fun _ hmsg => absurd hmsg (by decide)),
   (install_no_partial_output demoWorld demoCtx demoInstallation).1 "/game/lock.json" "lock-json"
      (by decide)⟩

/-- C4 (as stated, refuted). Resolution returns a lockfile whose entries `A`
and `B` both have a link; the download of `A` fails, `Install` stops there, and
neither is `B` downloaded nor anything extracted. -/
theorem install_stops_at_failed_download :
    Event.resolve (some { Name := "main" }) none 1234
      ∈ (demoInstallation.Install failingDownloadWorld demoCtx).trace ∧
    failingDownloadWorld.Resolve (some { Name := "main" }) none 1234 = Except.ok demoLockFile ∧
    expectedDownloads demoLockFile
      = [("A_1.0.0.zip", "ha", "https://a"), ("B_2.0.0.zip", "hb", "https://b")] ∧
    downloadCalls (demoInstallation.Install failingDownloadWorld demoCtx).trace
      = [("A_1.0.0.zip", "ha", "https://a")] ∧
    extractLocations (demoInstallation.Install failingDownloadWorld demoCtx).trace = [] :=
  ⟨by decide, rfl, by decide, by decide, by decide⟩

/-- C4 (amended). For the lockfile that resolution returned inside `Install`:
the downloads performed are, in order, an initial part of the entries with a
non-empty link, each with its reference and version (cache key), hash and
link, and the extractions an initial part of their directories; so nothing is
downloaded or extracted for an entry with an empty link. `Install` stops at
the first failure: when the mods directory cannot be created it downloads
nothing; when the entries with a link before some entry all download and
extract and that entry's download fails, the calls are those of the entries
before it and the failed download, and `Install` returns that download error;
when its extraction fails, the calls are those of the entries before it, its
download and its failed extraction, and `Install` returns that extraction
error. When the mods directory is created and every download and extraction
succeeds, the downloads and extractions are exactly those of the entries with
a non-empty link, in order, followed by at most the lockfile write. -/
theorem install_downloads_linked_entries (w : World) (ctx : GlobalContext) (i : Installation)
    (profile : Option Profile) (prior : Option LockFile) (gv : Int) (lockfile : LockFile)
    (hcall : Event.resolve profile prior gv ∈ (i.Install w ctx).trace)
    (hres : w.Resolve profile prior gv = Except.ok lockfile) :
    downloadCalls (i.Install w ctx).trace <+: expectedDownloads lockfile ∧
    extractLocations (i.Install w ctx).trace
      <+: expectedLocations w (w.Join [i.Path, "FactoryGame", "Mods"]) lockfile ∧
    (w.MkdirAll (w.Join [i.Path, "FactoryGame", "Mods"]) = none →
      AllInstalled w (w.Join [i.Path, "FactoryGame", "Mods"]) lockfile →
      downloadCalls (i.Install w ctx).trace = expectedDownloads lockfile ∧
      extractLocations (i.Install w ctx).trace
        = expectedLocations w (w.Join [i.Path, "FactoryGame", "Mods"]) lockfile ∧
      ∃ tail,
        (i.Install w ctx).trace
          = Event.resolve profile prior gv
              :: Event.mkdirAll (w.Join [i.Path, "FactoryGame", "Mods"])
              :: ((linkedEntries lockfile).flatMap
                    (entryCalls w (w.Join [i.Path, "FactoryGame", "Mods"])) ++ tail) ∧
        (tail = [] ∨ ∃ path data, tail = [Event.writeFile path data])) ∧
    (∀ e, w.MkdirAll (w.Join [i.Path, "FactoryGame", "Mods"]) = some e →
      i.Install w ctx
        = ⟨[Event.resolve profile prior gv,
              Event.mkdirAll (w.Join [i.Path, "FactoryGame", "Mods"])],
            some (Error.wrap e "failed creating Mods directory")⟩) ∧
    (w.MkdirAll (w.Join [i.Path, "FactoryGame", "Mods"]) = none →
      ∀ (done : LockFile) (entry : String × LockedMod) (rest : LockFile),
        linkedEntries lockfile = done ++ entry :: rest →
        AllInstalled w (w.Join [i.Path, "FactoryGame", "Mods"]) done →
        (∀ e,
          w.DownloadOrCache (entry.1 ++ "_" ++ entry.2.Version ++ ".zip") entry.2.Hash
              entry.2.Link = Except.error e →
          i.Install w ctx
            = ⟨Event.resolve profile prior gv
                :: Event.mkdirAll (w.Join [i.Path, "FactoryGame", "Mods"])
                :: (done.flatMap (entryCalls w (w.Join [i.Path, "FactoryGame", "Mods"]))
                    ++ [Event.download (entry.1 ++ "_" ++ entry.2.Version ++ ".zip")
                          entry.2.Hash entry.2.Link]),
                some (Error.wrap e
                  ("failed to download " ++ entry.1 ++ " from: " ++ entry.2.Link))⟩) ∧
        (∀ reader size e,
          w.DownloadOrCache (entry.1 ++ "_" ++ entry.2.Version ++ ".zip") entry.2.Hash
              entry.2.Link = Except.ok (reader, size) →
          w.ExtractMod reader size (w.Join [w.Join [i.Path, "FactoryGame", "Mods"], entry.1])
            = some e →
          i.Install w ctx
            = ⟨Event.resolve profile prior gv
                :: Event.mkdirAll (w.Join [i.Path, "FactoryGame", "Mods"])
                :: (done.flatMap (entryCalls w (w.Join [i.Path, "FactoryGame", "Mods"]))
                    ++ [Event.download (entry.1 ++ "_" ++ entry.2.Version ++ ".zip")
                          entry.2.Hash entry.2.Link,
                        Event.extract reader size
                          (w.Join [w.Join [i.Path, "FactoryGame", "Mods"], entry.1])]),
                some (Error.wrap e ("could not extract " ++ entry.1))⟩)) := by
  have hrun := install_run w ctx i
  generalize i.Install w ctx = o at hrun hcall
  have key :
      (∃ e, w.MkdirAll (w.Join [i.Path, "FactoryGame", "Mods"]) = some e ∧
        o = ⟨[Event.resolve profile prior gv,
                Event.mkdirAll (w.Join [i.Path, "FactoryGame", "Mods"])],
              some (Error.wrap e "failed creating Mods directory")⟩) ∨
      (w.MkdirAll (w.Join [i.Path, "FactoryGame", "Mods"]) = none ∧
        ∃ tail,
          o.trace = Event.resolve profile prior gv
              :: Event.mkdirAll (w.Join [i.Path, "FactoryGame", "Mods"])
              :: ((installMods w (w.Join [i.Path, "FactoryGame", "Mods"]) lockfile).1 ++ tail) ∧
          (tail = [] ∨ ∃ path data, tail = [Event.writeFile path data]) ∧
          ((installMods w (w.Join [i.Path, "FactoryGame", "Mods"]) lockfile).2 = none ∨
            o = ⟨Event.resolve profile prior gv
                  :: Event.mkdirAll (w.Join [i.Path, "FactoryGame", "Mods"])
                  :: (installMods w (w.Join [i.Path, "FactoryGame", "Mods"]) lockfile).1,
                (installMods w (w.Join [i.Path, "FactoryGame", "Mods"]) lockfile).2⟩)) := by
    cases hrun with
    | validate e hv => simp at hcall
    | platform e hv hp => simp at hcall
    | read platform e hv hp hr => simp at hcall
    | gameVersion platform prior1 e hv hp hr hg => simp at hcall
    | resolve platform prior1 gv1 e hv hp hr hg hres1 =>
      simp only [List.mem_singleton, Event.resolve.injEq] at hcall
      obtain ⟨rfl, rfl, rfl⟩ := hcall
      rw [hres] at hres1
      cases hres1
    | mkdir platform prior1 gv1 lockfile1 e hv hp hr hg hres1 hm =>
      simp only [List.mem_cons, Event.resolve.injEq, List.mem_singleton, reduceCtorEq,
        or_false, List.not_mem_nil] at hcall
      obtain ⟨rfl, rfl, rfl⟩ := hcall
      exact Or.inl ⟨e, hm, rfl⟩
    | mods platform prior1 gv1 lockfile1 e hv hp hr hg hres1 hm hi =>
      simp only [List.mem_cons, Event.resolve.injEq, reduceCtorEq, false_or,
        resolve_not_mem_installMods, or_false] at hcall
      obtain ⟨rfl, rfl, rfl⟩ := hcall
      rw [hres] at hres1
      cases hres1
      exact Or.inr ⟨hm, [], by simp, Or.inl rfl, Or.inr (by rw [hi])⟩
    | marshal platform prior1 gv1 lockfile1 e hv hp hr hg hres1 hm hi hj =>
      simp only [List.mem_cons, Event.resolve.injEq, reduceCtorEq, false_or,
        resolve_not_mem_installMods, or_false] at hcall
      obtain ⟨rfl, rfl, rfl⟩ := hcall
      rw [hres] at hres1
      cases hres1
      exact Or.inr ⟨hm, [], by simp, Or.inl rfl, Or.inl hi⟩
    | write platform prior1 gv1 lockfile1 data hv hp hr hg hres1 hm hi hj =>
      simp only [List.mem_cons, Event.resolve.injEq, reduceCtorEq, false_or, List.mem_append,
        resolve_not_mem_installMods, or_false, List.not_mem_nil] at hcall
      obtain ⟨rfl, rfl, rfl⟩ := hcall
      rw [hres] at hres1
      cases hres1
      exact Or.inr ⟨hm, [Event.writeFile (w.Join [i.Path, platform.LockfilePath]) data], rfl,
        Or.inr ⟨_, _, rfl⟩, Or.inl hi⟩
  obtain ⟨s1, s2, _, _, s5, s6⟩ :=
    installMods_spec w (w.Join [i.Path, "FactoryGame", "Mods"]) lockfile
  have hproj : ∀ tail : List Event, (tail = [] ∨ ∃ path data, tail = [Event.writeFile path data]) →
      downloadCalls (Event.resolve profile prior gv
          :: Event.mkdirAll (w.Join [i.Path, "FactoryGame", "Mods"])
          :: ((installMods w (w.Join [i.Path, "FactoryGame", "Mods"]) lockfile).1 ++ tail))
        = downloadCalls (installMods w (w.Join [i.Path, "FactoryGame", "Mods"]) lockfile).1 ∧
      extractLocations (Event.resolve profile prior gv
          :: Event.mkdirAll (w.Join [i.Path, "FactoryGame", "Mods"])
          :: ((installMods w (w.Join [i.Path, "FactoryGame", "Mods"]) lockfile).1 ++ tail))
        = extractLocations (installMods w (w.Join [i.Path, "FactoryGame", "Mods"]) lockfile).1 := by
    rintro tail (rfl | ⟨path, data, rfl⟩) <;>
      simp [downloadCalls, extractLocations, downloadCalls_append, extractLocations_append]
  refine ⟨?_, ?_, ?_, ?_, ?_⟩
  · rcases key with ⟨e, _, rfl⟩ | ⟨_, tail, ht, htail, _⟩
    · simp [downloadCalls]
    · rw [ht, (hproj tail htail).1]
      exact s1
  · rcases key with ⟨e, _, rfl⟩ | ⟨_, tail, ht, htail, _⟩
    · simp [extractLocations]
    · rw [ht, (hproj tail htail).2]
      exact s2
  · intro hm hall
    rcases key with ⟨e, hme, _⟩ | ⟨_, tail, ht, htail, _⟩
    · rw [hm] at hme
      cases hme
    · have hnone := s5.2 hall
      obtain ⟨d1, d2⟩ := s6 hnone
      refine ⟨?_, ?_, tail, ?_, htail⟩
      · rw [ht, (hproj tail htail).1]
        exact d1
      · rw [ht, (hproj tail htail).2]
        exact d2
      · rw [ht, installMods_all w _ lockfile hall]
  · intro e hme
    rcases key with ⟨e1, hme1, rfl⟩ | ⟨hm, _⟩
    · rw [hme] at hme1
      cases hme1
      rfl
    · rw [hm] at hme
      cases hme
  · intro hm done entry rest hdec hall
    obtain ⟨st1, st2⟩ :=
      installMods_stops w (w.Join [i.Path, "FactoryGame", "Mods"]) lockfile done entry rest
        hdec hall
    rcases key with ⟨e, hme, _⟩ | ⟨_, tail, _, _, hlast⟩
    · rw [hm] at hme
      cases hme
    · refine ⟨?_, ?_⟩
      · intro e hdl
        have hst := st1 e hdl
        rcases hlast with h | h
        · rw [hst] at h
          cases h
        · rw [h, hst]
      · intro reader size e hdl hex
        have hst := st2 reader size e hdl hex
        rcases hlast with h | h
        · rw [hst] at h
          cases h
        · rw [h, hst]

/-- Witness for C4 (amended): with nothing failing, `A` and `B` are downloaded
and extracted and the entry `L` without link is passed over; with the
extraction of `A` failing, `A` is downloaded, its extraction is attempted,
`Install` returns that error and `B` is not touched. -/
theorem install_downloads_linked_entries_witness :
    (downloadCalls (demoInstallation.Install demoWorld demoCtx).trace
        = [("A_1.0.0.zip", "ha", "https://a"), ("B_2.0.0.zip", "hb", "https://b")] ∧
      extractLocations (demoInstallation.Install demoWorld demoCtx).trace
        = ["/game/FactoryGame/Mods/A", "/game/FactoryGame/Mods/B"]) ∧
    demoInstallation.Install failingExtractWorld demoCtx
      = ⟨[Event.resolve (some { Name := "main" }) none 1234,
          Event.mkdirAll "/game/FactoryGame/Mods",
          Event.download "A_1.0.0.zip" "ha" "https://a",
          Event.extract "A_1.0.0.zip" 10 "/game/FactoryGame/Mods/A"],
        some (Error.wrap (Error.ext false "zip: not a valid zip file") "could not extract A")⟩ :=
  ⟨⟨((install_downloads_linked_entries demoWorld demoCtx demoInstallation
        (some { Name := "main" }) none 1234 demoLockFile (by decide) rfl).2.2.1 rfl
      (fun entry _ _ => ⟨_, 10, rfl, rfl⟩)).1,
    ((install_downloads_linked_entries demoWorld demoCtx demoInstallation
        (some { Name := "main" }) none 1234 demoLockFile (by decide) rfl).2.2.1 rfl
      (fun entry _ _ => ⟨_, 10, rfl, rfl⟩)).2.1⟩,
   ((install_downloads_linked_entries failingExtractWorld demoCtx demoInstallation
        (some { Name := "main" }) none 1234 demoLockFile (by decide) rfl).2.2.2.2 rfl
      [] ("A", { Version := "1.0.0", Hash := "ha", Link := "https://a" })
      [("B", { Version := "2.0.0", Hash := "hb", Link := "https://b" })] (by decide)
      (fun entry he _ => nomatch he)).2
      "A_1.0.0.zip" 10 (Error.ext false "zip: not a valid zip file") rfl (by decide)⟩

/-- C6 (as stated, refuted). The lockfile does not exist, yet `Install` never
calls resolution: the game version file does not parse and `Install` returns
that error. -/
theorem install_missing_lockfile_without_resolution :
    demoInstallation.GetPlatform badVersionWorld demoCtx
      = Except.ok { VersionPath := "ver", LockfilePath := "lock.json" } ∧
    badVersionWorld.ReadFile (badVersionWorld.Join [demoInstallation.Path, "lock.json"])
      = Except.error (Error.ext true "no such file or directory") ∧
    IsNotExist (Error.ext true "no such file or directory") = true ∧
    resolvePriors (demoInstallation.Install badVersionWorld demoCtx).trace = [] ∧
    demoInstallation.Install badVersionWorld demoCtx
      = ⟨[], some (Error.wrap
          (Error.wrap (Error.ext false "unexpected end of JSON input")
            "failed to parse version file json")
          "failed to detect game version")⟩ :=
  ⟨rfl, rfl, rfl, by decide, by decide⟩

/-- C6 (amended). With the platform detected: when the lockfile does not
exist, `Install` returns no lockfile reading or parsing error, goes on to
game-version detection and, when that succeeds, calls resolution with no prior
lockfile (and never with another prior). A read error other than not-exist
ends `Install` with "failed reading lockfile", content that does not parse
ends it with "failed parsing lockfile", both before any call is made; content
that parses sends `Install` on in the same way with the parsed prior. -/
theorem install_lockfile_step (w : World) (ctx : GlobalContext) (i : Installation)
    (platform : Platform) (hp : i.GetPlatform w ctx = Except.ok platform) :
    (∀ e, w.ReadFile (w.Join [i.Path, platform.LockfilePath]) = Except.error e →
      IsNotExist e = true →
      (∀ c, (i.Install w ctx).err ≠ some (Error.wrap c "failed reading lockfile") ∧
        (i.Install w ctx).err ≠ some (Error.wrap c "failed parsing lockfile")) ∧
      (∀ q ∈ resolvePriors (i.Install w ctx).trace, q = none) ∧
      ((∃ e1, i.GetGameVersion w ctx = Except.error e1 ∧
          i.Install w ctx = ⟨[], some (Error.wrap e1 "failed to detect game version")⟩) ∨
        ∃ gv rest, i.GetGameVersion w ctx = Except.ok gv ∧
          (i.Install w ctx).trace
            = Event.resolve (ctx.Profiles.Profiles.lookup i.Profile) none gv :: rest)) ∧
    (∀ e, w.ReadFile (w.Join [i.Path, platform.LockfilePath]) = Except.error e →
      IsNotExist e = false →
      i.Install w ctx = ⟨[], some (Error.wrap e "failed reading lockfile")⟩) ∧
    (∀ json e, w.ReadFile (w.Join [i.Path, platform.LockfilePath]) = Except.ok json →
      w.UnmarshalLockFile json = Except.error e →
      i.Install w ctx = ⟨[], some (Error.wrap e "failed parsing lockfile")⟩) ∧
    (∀ json prior, w.ReadFile (w.Join [i.Path, platform.LockfilePath]) = Except.ok json →
      w.UnmarshalLockFile json = Except.ok prior →
      (∀ c, (i.Install w ctx).err ≠ some (Error.wrap c "failed reading lockfile") ∧
        (i.Install w ctx).err ≠ some (Error.wrap c "failed parsing lockfile")) ∧
      ((∃ e1, i.GetGameVersion w ctx = Except.error e1 ∧
          i.Install w ctx = ⟨[], some (Error.wrap e1 "failed to detect game version")⟩) ∨
        ∃ gv rest, i.GetGameVersion w ctx = Except.ok gv ∧
          (i.Install w ctx).trace
            = Event.resolve (ctx.Profiles.Profiles.lookup i.Profile) prior gv :: rest)) := by
  obtain ⟨c1, c2, c3, c4⟩ := readLockFile_cases w (w.Join [i.Path, platform.LockfilePath])
  refine ⟨?_, ?_, ?_, ?_⟩
  · intro e h1 h2
    obtain ⟨k1, k2, k3⟩ := install_of_prior w ctx i platform none hp (c1 e h1 h2)
    exact ⟨k3, k1, k2⟩
  · intro e h1 h2
    exact install_of_read_error w ctx i platform _ hp (c2 e h1 h2)
  · intro json e h1 h2
    exact install_of_read_error w ctx i platform _ hp (c3 json e h1 h2)
  · intro json prior h1 h2
    obtain ⟨_, k2, k3⟩ := install_of_prior w ctx i platform prior hp (c4 json prior h1 h2)
    exact ⟨k3, k2⟩

/-- Witness for C6 (amended): in the demo world the lockfile does not exist
and the game version is detected, so resolution is called with no prior. -/
theorem install_lockfile_step_witness :
    (∀ q ∈ resolvePriors (demoInstallation.Install demoWorld demoCtx).trace, q = none) ∧
    ((∃ e1, demoInstallation.GetGameVersion demoWorld demoCtx = Except.error e1 ∧
        demoInstallation.Install demoWorld demoCtx
          = ⟨[], some (Error.wrap e1 "failed to detect game version")⟩) ∨
      ∃ gv rest, demoInstallation.GetGameVersion demoWorld demoCtx = Except.ok gv ∧
        (demoInstallation.Install demoWorld demoCtx).trace
          = Event.resolve (demoCtx.Profiles.Profiles.lookup demoInstallation.Profile) none gv
              :: rest) :=
  ((install_lockfile_step demoWorld demoCtx demoInstallation
      { VersionPath := "ver", LockfilePath := "lock.json" } rfl).1
    (Error.ext true "no such file or directory") rfl rfl).2

/-- C9 (as stated, refuted). `/game` is registered and `/link` is the same
file, but adding `/link` with a profile that does not exist fails in
validation, not with "installation already present". -/
theorem addInstallation_same_file_other_error :
    demoRegistered.Installations = [demoInstallation] ∧
    demoWorld.Abs "/link" = Except.ok "/link" ∧
    demoWorld.Stat "/link" = Except.ok { sys := 1 } ∧
    demoWorld.Stat demoInstallation.Path = Except.ok { sys := 1 } ∧
    demoWorld.SameFile { sys := 1 } { sys := 1 } = true ∧
    (demoRegistered.AddInstallation demoWorld demoCtx "/link" "nope").2
      = Except.error
          (Error.wrap (Error.new "profile not found") "failed to validate installation") ∧
    (demoRegistered.AddInstallation demoWorld demoCtx "/link" "nope").2
      ≠ Except.error (Error.new "installation already present") :=
  ⟨rfl, rfl, rfl, rfl, rfl, rfl, fun h => by
    have h1 : Except.error
        (Error.wrap (Error.new "profile not found") "failed to validate installation")
        = (Except.error (Error.new "installation already present") : Except Error Installation) :=
      h
    injection h1 with h2
    cases h2⟩

/-- C9 (amended). When the absolute path is found, validation succeeds and the
new path can be stat'ed: if some existing installation that can be stat'ed is
the same file, `AddInstallation` fails with "installation already present" and
the list is unchanged; otherwise the list gains exactly the new installation
(absolute path, given profile) at its end. In every case a list in which no
two installations refer to the same file is still such a list afterwards
(`os.SameFile` being symmetric). -/
theorem addInstallation_no_duplicate (w : World) (ctx : GlobalContext) (i : Installations)
    (installPath profile : String) :
    (∀ absolutePath newStat, w.Abs installPath = Except.ok absolutePath →
      Installation.Validate w ctx { Path := absolutePath, Profile := profile } = none →
      w.Stat absolutePath = Except.ok newStat →
      ((∃ x ∈ i.Installations, ∃ st,
          w.Stat x.Path = Except.ok st ∧ w.SameFile newStat st = true) →
        i.AddInstallation w ctx installPath profile
          = (i, Except.error (Error.new "installation already present"))) ∧
      ((¬ ∃ x ∈ i.Installations, ∃ st,
          w.Stat x.Path = Except.ok st ∧ w.SameFile newStat st = true) →
        i.AddInstallation w ctx installPath profile
          = ({ i with Installations :=
                  i.Installations ++ [{ Path := absolutePath, Profile := profile }] },
              Except.ok { Path := absolutePath, Profile := profile }))) ∧
    ((∀ a b, w.SameFile a b = w.SameFile b a) →
      NoDuplicateDirectory w i.Installations →
      NoDuplicateDirectory w (i.AddInstallation w ctx installPath profile).1.Installations) := by
  refine ⟨?_, ?_⟩
  · intro absolutePath newStat habs hval hstat
    refine ⟨?_, ?_⟩
    · intro h
      have hf := (findSameFile_iff w newStat i.Installations).2 h
      simp [Installations.AddInstallation, habs, hval, hstat, hf]
    · intro h
      have hf : findSameFile w newStat i.Installations = false := by
        cases hb : findSameFile w newStat i.Installations
        · rfl
        · exact (h ((findSameFile_iff w newStat i.Installations).1 hb)).elim
      simp [Installations.AddInstallation, habs, hval, hstat, hf]
  · intro hsymm hinv
    rcases addInstallation_cases w ctx i installPath profile with
      ⟨h1, _⟩ | ⟨absolutePath, newStat, _, _, hstat, hf, heq⟩
    · rw [h1]
      exact hinv
    · rw [heq]
      unfold NoDuplicateDirectory at hinv ⊢
      rw [List.pairwise_append]
      refine ⟨hinv, List.pairwise_singleton _ _, ?_⟩
      intro a ha b hb
      rw [List.mem_singleton] at hb
      subst hb
      have hnone : ¬ ∃ x ∈ i.Installations, ∃ st,
          w.Stat x.Path = Except.ok st ∧ w.SameFile newStat st = true := by
        intro hex
        rw [(findSameFile_iff w newStat i.Installations).2 hex] at hf
        cases hf
      refine ⟨?_, ?_⟩
      · rintro ⟨sa, sb, h1, h2, h3⟩
        have h2' : w.Stat absolutePath = Except.ok sb := h2
        rw [hstat] at h2'
        cases h2'
        exact hnone ⟨a, ha, sa, h1, by rw [hsymm]; exact h3⟩
      · rintro ⟨sa, sb, h1, h2, h3⟩
        have h1' : w.Stat absolutePath = Except.ok sa := h1
        rw [hstat] at h1'
        cases h1'
        exact hnone ⟨a, ha, sb, h2, h3⟩

/-- Witness for C9 (amended): `/link` is the registered `/game` again and is
refused; `/other` is new and is appended. -/
theorem addInstallation_no_duplicate_witness :
    NoDuplicateDirectory demoWorld
      (demoRegistered.AddInstallation demoWorld demoCtx "/other" "main").1.Installations ∧
    demoRegistered.AddInstallation demoWorld demoCtx "/link" "main"
      = (demoRegistered, Except.error (Error.new "installation already present")) ∧
    demoRegistered.AddInstallation demoWorld demoCtx "/other" "main"
      = ({ demoRegistered with
            Installations := demoRegistered.Installations ++ [{ Path := "/other", Profile := "main" }] },
          Except.ok { Path := "/other", Profile := "main" }) :=
  ⟨(addInstallation_no_duplicate demoWorld demoCtx demoRegistered "/other" "main").2
      (fun a b => Bool.beq_comm) (List.pairwise_singleton _ _),
   ((addInstallation_no_duplicate demoWorld demoCtx demoRegistered "/link" "main").1
      "/link" { sys := 1 } rfl (by decide) rfl).1
      ⟨demoInstallation, by decide, { sys := 1 }, rfl, rfl⟩,
   ((addInstallation_no_duplicate demoWorld demoCtx demoRegistered "/other" "main").1
      "/other" { sys := 4 } rfl (by decide) rfl).2
      (by
        rintro ⟨x, hx, st, h1, h2⟩
        have hx1 : x = demoInstallation := by simpa [demoRegistered] using hx
        subst hx1
        have h3 : demoWorld.Stat demoInstallation.Path = Except.ok { sys := 1 } := rfl
        rw [h3] at h1
        cases h1
        exact absurd h2 (by decide))⟩

end Ficsit
